import Mathlib

/-!
Shallow embedding of the `shmirot_gdud` core scheduling engine
(`src/shmirot_gdud/core/`): data model (`models.py`, `basic_models.py`),
constraint engine (`constraints/implementations.py`, `constraints/factory.py`,
`base/context.py`), and the scheduler (`scheduler.py`).

Modelling conventions:
* Calendar dates ("%Y-%m-%d" strings in the source) are modelled as day
  indices (`Nat`); the source orders date strings lexicographically and
  takes datetime differences, which for well-formed date strings agree
  with day-index arithmetic.
* Python floats are modelled as `Int` (scheduler scores: all score
  constants are integers and every operation performed on them is exact
  in binary floating point at these magnitudes) and as `Rat` where true
  division occurs (the fill allocator's quota ratio).
* Python dicts with a fixed key set are modelled as structures; mutable
  shared objects (slots, context, per-group caches) are modelled by an
  explicit state record threaded through every operation.
* `uuid.uuid4()` fresh-uid generation is modelled by explicit uid
  parameters.
-/

namespace Shmirot

abbrev GroupId := String

/-- `scheduler.DISABLED_ID`: sentinel group id for disabled slots. -/
def DISABLED_ID : GroupId := "DISABLED"

/-! ### Scoring configuration (`config.py`, class `ScoringConfig`, default values).
`CONSECUTIVE_PENALTY_EXPONENT` is the float `2.0` in the source; `x ** 2.0`
on a nonnegative integer-valued float is exactly `x^2`, so it is modelled
as the natural exponent 2. -/

def SIMULTANEOUS_BONUS : Int := 500
def CONSECUTIVE_BONUS_PER_HOUR : Int := 50
def STAFFING_RULE_BONUS : Int := 300
def LONG_REST_BONUS : Int := 100
def CONSECUTIVE_PENALTY_EXPONENT : Nat := 2
def CONSECUTIVE_PENALTY_MULTIPLIER : Int := 500
def REST_PENALTY : Int := 1000
def SHORT_REST_PENALTY : Int := 50
def ACTIVITY_WINDOW_PENALTY : Int := 1000

/-! ### Rule dictionaries.
The source keeps constraint rules as raw dicts. `RuleDict` covers the key
set used by unavailability rules and activity windows (`day`, `start_hour`,
`end_hour`) as well as staffing rules (additionally `max_capacity`,
`force_coupling`, `uid`); absent keys are read with `.get(...)` defaults in
the source, modelled by the defaults below. -/

structure RuleDict where
  day : Nat
  start_hour : Nat
  end_hour : Nat
  max_capacity : Option Int := none
  force_coupling : Bool := false
  uid : Option String := none
deriving DecidableEq

/-- A `date_specific` rule dict: keys `dates`, `start_hour`, `end_hour`,
`is_available` (dates as day indices). -/
structure DateRuleDict where
  dates : List Nat
  start_hour : Nat
  end_hour : Nat
  is_available : Bool
deriving DecidableEq

/-- `basic_models.StaffingException` (dates as day indices). -/
structure StaffingException where
  start_date : Nat
  start_hour : Nat
  end_date : Nat
  end_hour : Nat
  new_staffing_size : Int
deriving DecidableEq

/-- The closed constraint variant set of `constraints/implementations.py`.
Every variant carries the `uid` assigned by `ConstraintBase.__init__`. -/
inductive Constraint where
  | unavailability (uid : String) (rules : List RuleDict)
  | activityWindow (uid : String) (windows : List RuleDict)
  | dateSpecific (uid : String) (dcs : List DateRuleDict)
  | staffingRules (uid : String) (rules : List RuleDict)
  | simultaneous (uid : String) (allowed : Bool)
  | consecutive (uid : String)
  | rest (uid : String)
deriving DecidableEq

namespace Constraint

/-- `get_type_id` of each variant. -/
def get_type_id : Constraint → String
  | unavailability _ _ => "unavailability"
  | activityWindow _ _ => "activity_window"
  | dateSpecific _ _ => "date_specific"
  | staffingRules _ _ => "staffing_rules"
  | simultaneous _ _ => "simultaneous"
  | consecutive _ => "consecutive"
  | rest _ => "rest"

/-- The constraint's `uid` attribute (from `ConstraintBase.__init__`). -/
def uidOf : Constraint → String
  | unavailability u _ => u
  | activityWindow u _ => u
  | dateSpecific u _ => u
  | staffingRules u _ => u
  | simultaneous u _ => u
  | consecutive u => u
  | rest u => u

/-- `is_hard_constraint` of each variant. -/
def is_hard_constraint : Constraint → Bool
  | unavailability _ _ => true
  | dateSpecific _ _ => true
  | staffingRules _ _ => true
  | simultaneous _ _ => true
  | activityWindow _ _ => false
  | consecutive _ => false
  | rest _ => false

end Constraint

/-- `models.ScheduleSlot` (date as a day index). -/
structure ScheduleSlot where
  date : Nat
  day_of_week : Nat
  hour : Nat
  position : Nat
  group_id : Option GroupId := none
  is_locked : Bool := false
deriving DecidableEq

/-- The identity triple `(date, hour, position)` used by
`ScheduleSlot.__hash__` and `ScheduleSlot.__eq__`. -/
structure SlotKey where
  date : Nat
  hour : Nat
  position : Nat
deriving DecidableEq

def ScheduleSlot.key (s : ScheduleSlot) : SlotKey := ⟨s.date, s.hour, s.position⟩

/-- `ScheduleSlot.__eq__`: equality on the identity triple only. -/
def ScheduleSlot.pyEq (a b : ScheduleSlot) : Bool :=
  (a.date, a.hour, a.position) = (b.date, b.hour, b.position)

/-- The tuple fed to `hash(...)` in `ScheduleSlot.__hash__`. -/
def ScheduleSlot.hashInput (s : ScheduleSlot) : Nat × Nat × Nat :=
  (s.date, s.hour, s.position)

/-- `models.Group`: static (non-cache) fields. The mutable caching fields
`_cached_score`, `_is_dirty`, `_assigned_slots` live in `SchedState`. -/
structure SGroup where
  id : GroupId
  name : String := ""
  staffing_size : Option Int := none
  weekly_guard_quota : Option Int := none
  staffing_exceptions : List StaffingException := []
  constraints : List Constraint := []
  can_guard_simultaneously : Bool := true
  color : String := ""
deriving DecidableEq

/-- `Group.validate`: exactly-one-workload-specifier check (the source
checks that at least one of the two is set). -/
def SGroup.validate (g : SGroup) : Bool :=
  g.staffing_size.isSome || g.weekly_guard_quota.isSome

/-- Replace the `allowed` flag of the first Simultaneous constraint
(`sim_constraint.allowed = self.can_guard_simultaneously` in
`Group.__post_init__`). -/
def syncFirstSimultaneous (can : Bool) : List Constraint → List Constraint
  | [] => []
  | Constraint.simultaneous u _ :: cs => Constraint.simultaneous u can :: cs
  | c :: cs => c :: syncFirstSimultaneous can cs

def hasSimultaneous (cs : List Constraint) : Bool :=
  cs.any fun c => match c with | Constraint.simultaneous _ _ => true | _ => false

def hasConsecutive (cs : List Constraint) : Bool :=
  cs.any fun c => match c with | Constraint.consecutive _ => true | _ => false

def hasRest (cs : List Constraint) : Bool :=
  cs.any fun c => match c with | Constraint.rest _ => true | _ => false

/-- The constraint-list transformation of `Group.__post_init__`: inject a
Simultaneous constraint (or sync the existing first one's `allowed`
flag), then inject Consecutive and Rest if absent. -/
def postInitConstraints (u1 u2 u3 : String) (can : Bool) (cs : List Constraint) :
    List Constraint :=
  let cs1 := if hasSimultaneous cs then syncFirstSimultaneous can cs
    else cs ++ [Constraint.simultaneous u1 can]
  let cs2 := if hasConsecutive cs1 then cs1 else cs1 ++ [Constraint.consecutive u2]
  if hasRest cs2 then cs2 else cs2 ++ [Constraint.rest u3]

/-- `Group.__post_init__`. `u1 u2 u3` model the fresh uids from
`ConstraintBase.__init__` of the injected defaults. -/
def postInit (u1 u2 u3 : String) (g : SGroup) : SGroup :=
  { g with constraints :=
      postInitConstraints u1 u2 u3 g.can_guard_simultaneously g.constraints }

/-- `models.Schedule` (dates as day indices). -/
structure Sched where
  start_date : Nat
  end_date : Nat
  slots : List ScheduleSlot
deriving DecidableEq

/-! ### Run-scoped state.

The Python engine mutates shared objects in place: `ScheduleSlot.group_id`,
`ScheduleContext.usage_counters` / `group_id` / `other_group_id` /
`is_initial_fill`, `Scheduler.rule_usage`, and each `Group`'s caching
fields `_assigned_slots` / `_cached_score` / `_is_dirty`.  `SchedState`
collects all of this mutable state; every operation takes and returns it. -/

/-- Injective encoding of a slot identity into `Nat`, fixing a canonical
enumeration order for assigned-slot sets. -/
def keyEnc (k : SlotKey) : Nat := Nat.pair k.date (Nat.pair k.hour k.position)

/-- Insert into a canonically sorted slot-key set (`set.add`: no-op when
the key is present). -/
def insKey (x : SlotKey) : List SlotKey → List SlotKey
  | [] => [x]
  | y :: ys =>
    if x = y then y :: ys
    else if keyEnc x < keyEnc y then x :: y :: ys
    else y :: insKey x ys

/-- Remove from a slot-key set (`set.remove` after a membership guard). -/
def removeKey (x : SlotKey) : List SlotKey → List SlotKey
  | [] => []
  | y :: ys => if x = y then ys else y :: removeKey x ys

/-- The canonical-sortedness invariant of assigned-slot sets (Python sets
are unordered; the model keeps them strictly sorted by `keyEnc`). -/
def KSorted (l : List SlotKey) : Prop := List.Chain' (fun a b => keyEnc a < keyEnc b) l

instance : DecidablePred KSorted := fun l =>
  inferInstanceAs (Decidable (List.Chain' (fun a b => keyEnc a < keyEnc b) l))

/-- The mutable caching fields of one `Group`. Defaults match the
dataclass field defaults in `models.Group`. -/
structure GState where
  assigned : List SlotKey
  cached : Option Int
  dirty : Bool
deriving DecidableEq

def GState.initial : GState := ⟨[], none, true⟩

structure SchedState where
  /-- live `ScheduleSlot.group_id` per slot identity -/
  assign : SlotKey → Option GroupId
  /-- `Scheduler.rule_usage`, keyed `(group.id, c_idx, r_idx)` -/
  rule_usage : GroupId × Nat × Nat → Int
  /-- `ScheduleContext.usage_counters`, keyed by staffing-rule uid -/
  usage_counters : String → Int
  /-- per-group caching fields -/
  gstates : GroupId → GState
  /-- `ScheduleContext.group_id` -/
  ctx_group_id : Option GroupId
  /-- `ScheduleContext.other_group_id` -/
  ctx_other_group_id : Option GroupId
  /-- `ScheduleContext.is_initial_fill` -/
  ctx_is_initial_fill : Bool

/-- The static data of one scheduling run: the groups and the schedule's
slot list (slot identities, day-of-week and locked flags are never
mutated by the engine). -/
structure Env where
  groups : List SGroup
  sched : Sched

def Env.keys (env : Env) : List SlotKey := env.sched.slots.map ScheduleSlot.key

/-- Static slot data for a key: the source passes live `ScheduleSlot`
objects around; their non-`group_id` fields come from the schedule. -/
def Env.infoOf (env : Env) (k : SlotKey) : ScheduleSlot :=
  (env.sched.slots.find? (fun s => s.key = k)).getD
    { date := k.date, day_of_week := 0, hour := k.hour, position := k.position }

/-- `Scheduler._get_group`: `None`/`DISABLED` resolve to no group, else the
first group in the list with that id. -/
def get_group (env : Env) (gid : Option GroupId) : Option SGroup :=
  match gid with
  | none => none
  | some g => if g = DISABLED_ID then none else env.groups.find? (fun x => x.id = g)

/-- `ScheduleContext.get_other_slot`: the slot at the same `(date, hour)`
and the other position, looked up in `slot_map` (present iff the schedule
has such a slot). -/
def otherKey (k : SlotKey) : SlotKey :=
  ⟨k.date, k.hour, if k.position = 1 then 2 else 1⟩

def get_other_slot (env : Env) (k : SlotKey) : Option SlotKey :=
  if otherKey k ∈ env.keys then some (otherKey k) else none

/-! ### Constraint engine operations (`constraints/implementations.py`). -/

/-- Shared rule-window test `r['day'] == slot.day_of_week and
r['start_hour'] <= slot.hour < r['end_hour']`. -/
def ruleMatches (r : RuleDict) (s : ScheduleSlot) : Bool :=
  r.day = s.day_of_week && r.start_hour ≤ s.hour && s.hour < r.end_hour

/-- `UnavailabilityConstraint.check_validity`. -/
def unavailabilityCheck (rules : List RuleDict) (s : ScheduleSlot) : Bool :=
  !(rules.any fun r => ruleMatches r s)

/-- Loop body of `DateSpecificConstraint.check_validity`, with the
`has_positive` / `allowed` accumulators explicit. -/
def dateSpecificGo (date hour : Nat) : List DateRuleDict → Bool → Bool → Bool
  | [], hasPos, allowed => if hasPos then allowed else true
  | c :: cs, hasPos, allowed =>
    if date ∈ c.dates then
      if !c.is_available then
        if c.start_hour ≤ hour && hour < c.end_hour then false
        else dateSpecificGo date hour cs hasPos allowed
      else
        dateSpecificGo date hour cs true
          (allowed || (c.start_hour ≤ hour && hour < c.end_hour))
    else dateSpecificGo date hour cs hasPos allowed

/-- `DateSpecificConstraint.check_validity`. -/
def dateSpecificCheck (dcs : List DateRuleDict) (s : ScheduleSlot) : Bool :=
  dateSpecificGo s.date s.hour dcs false false

/-- Capacity increment in `StaffingRuleConstraint.check_validity`: 2 only
during initial fill when coupling is forced and the sibling post is
unassigned. -/
def staffingIncrement (st : SchedState) (r : RuleDict) : Int :=
  if st.ctx_is_initial_fill && r.force_coupling && st.ctx_other_group_id = none
  then 2 else 1

/-- Per-rule test inside `StaffingRuleConstraint.check_validity`. -/
def staffingRuleOk (st : SchedState) (gid : GroupId) (r : RuleDict)
    (s : ScheduleSlot) : Bool :=
  if ruleMatches r s then
    (match r.max_capacity with
     | none => true
     | some cap => st.usage_counters (r.uid.getD "") + staffingIncrement st r ≤ cap) &&
    (if r.force_coupling then
       match st.ctx_other_group_id with
       | some o => o = gid
       | none => true
     else true)
  else true

/-- `StaffingRuleConstraint.check_validity`: vacuously true when the
context carries no acting group id. -/
def staffingRulesCheck (st : SchedState) (rules : List RuleDict)
    (s : ScheduleSlot) : Bool :=
  match st.ctx_group_id with
  | none => true
  | some gid => rules.all fun r => staffingRuleOk st gid r s

/-- The `other_gid` resolution shared by `SimultaneousConstraint`:
`context.other_group_id` when set, else the sibling slot's live group id. -/
def simOtherGid (env : Env) (st : SchedState) (s : ScheduleSlot) : Option GroupId :=
  match st.ctx_other_group_id with
  | some o => some o
  | none =>
    match get_other_slot env s.key with
    | some k => st.assign k
    | none => none

/-- `SimultaneousConstraint.check_validity`. -/
def simultaneousCheck (env : Env) (st : SchedState) (allowed : Bool)
    (s : ScheduleSlot) : Bool :=
  if allowed then true
  else
    match simOtherGid env st s, st.ctx_group_id with
    | some o, some me => !(o = me)
    | _, _ => true

/-- `Constraint.check_validity` dispatch (equal to `validate` for every
variant). -/
def Constraint.check_validity (c : Constraint) (env : Env) (st : SchedState)
    (s : ScheduleSlot) : Bool :=
  match c with
  | .unavailability _ rules => unavailabilityCheck rules s
  | .activityWindow _ _ => true
  | .dateSpecific _ dcs => dateSpecificCheck dcs s
  | .staffingRules _ rules => staffingRulesCheck st rules s
  | .simultaneous _ allowed => simultaneousCheck env st allowed s
  | .consecutive _ => true
  | .rest _ => true

/-- `Constraint.calculate_score` dispatch (the local, additive soft
score). -/
def Constraint.calculate_score (c : Constraint) (env : Env) (st : SchedState)
    (s : ScheduleSlot) : Int :=
  match c with
  | .unavailability _ _ => 0
  | .activityWindow _ windows =>
    if windows.any (fun w => ruleMatches w s) then -ACTIVITY_WINDOW_PENALTY else 0
  | .dateSpecific _ _ => 0
  | .staffingRules _ rules =>
    rules.foldl (fun acc r =>
      if ruleMatches r s && r.force_coupling then acc + STAFFING_RULE_BONUS else acc) 0
  | .simultaneous _ allowed =>
    if !allowed then 0
    else
      match simOtherGid env st s, st.ctx_group_id with
      | some o, some me => if o = me then SIMULTANEOUS_BONUS else 0
      | _, _ => 0
  | .consecutive _ => 0
  | .rest _ => 0

/-- `ScheduleContext.update_usage`. -/
def updateUsage (st : SchedState) (uid : String) (delta : Int) : SchedState :=
  { st with usage_counters :=
      Function.update st.usage_counters uid (st.usage_counters uid + delta) }

/-- `Constraint.on_assign`: only `StaffingRuleConstraint` updates usage
counters (one per matching rule). -/
def Constraint.on_assign (c : Constraint) (st : SchedState)
    (s : ScheduleSlot) : SchedState :=
  match c with
  | .staffingRules _ rules =>
    rules.foldl (fun acc r =>
      if ruleMatches r s then updateUsage acc (r.uid.getD "") 1 else acc) st
  | _ => st

/-- `Constraint.on_remove`. -/
def Constraint.on_remove (c : Constraint) (st : SchedState)
    (s : ScheduleSlot) : SchedState :=
  match c with
  | .staffingRules _ rules =>
    rules.foldl (fun acc r =>
      if ruleMatches r s then updateUsage acc (r.uid.getD "") (-1) else acc) st
  | _ => st

/-! ### Group operations (`models.Group`). -/

/-- Overwrite one group's caching fields. -/
def setGState (st : SchedState) (gid : GroupId) (gs : GState) : SchedState :=
  { st with gstates := Function.update st.gstates gid gs }

/-- `Group.invalidate_cache`. -/
def invalidateCache (st : SchedState) (gid : GroupId) : SchedState :=
  setGState st gid { (st.gstates gid) with dirty := true, cached := none }

/-- `Group.is_available`: sets `context.group_id`, then requires every
hard constraint's `validate` (= `check_validity`) to pass. -/
def SGroup.is_available (g : SGroup) (env : Env) (st : SchedState)
    (s : ScheduleSlot) : Bool × SchedState :=
  let st := { st with ctx_group_id := some g.id }
  (g.constraints.all fun c =>
    !c.is_hard_constraint || c.check_validity env st s, st)

/-- `Group.calculate_score`: the local score of one potential assignment,
skipping the global Consecutive/Rest constraints (sets
`context.group_id`). The source returns `None` only if some constraint's
`calculate_score` returns `None`, which no variant does. -/
def SGroup.calculate_score (g : SGroup) (env : Env) (st : SchedState)
    (s : ScheduleSlot) : Int × SchedState :=
  let st := { st with ctx_group_id := some g.id }
  (g.constraints.foldl (fun acc c =>
    match c with
    | .consecutive _ => acc
    | .rest _ => acc
    | _ => acc + c.calculate_score env st s) 0, st)

/-- `Group.notify_assignment`: add the slot to `_assigned_slots`,
invalidate the cache, set `context.group_id`, then run every
constraint's `on_assign`. -/
def notify_assignment (g : SGroup) (st : SchedState) (s : ScheduleSlot) : SchedState :=
  let gs := st.gstates g.id
  let gs' : GState := ⟨insKey s.key gs.assigned, none, true⟩
  let st := setGState st g.id gs'
  let st := { st with ctx_group_id := some g.id }
  g.constraints.foldl (fun acc c => c.on_assign acc s) st

/-- `Group.notify_removal`: remove the slot from `_assigned_slots` and
invalidate the cache only if it was a member; always set
`context.group_id` and run every constraint's `on_remove`. -/
def notify_removal (g : SGroup) (st : SchedState) (s : ScheduleSlot) : SchedState :=
  let gs := st.gstates g.id
  let st :=
    if s.key ∈ gs.assigned then
      setGState st g.id ⟨removeKey s.key gs.assigned, none, true⟩
    else st
  let st := { st with ctx_group_id := some g.id }
  g.constraints.foldl (fun acc c => c.on_remove acc s) st

/-! ### Consecutive / Rest global scoring
(`ConsecutiveConstraint.calculate_global_score`, `_evaluate_sequence`,
`RestConstraint.calculate_global_score`).

The source takes `sorted(list(set((s.date, s.hour) for s in slots)))`:
the strictly sorted list of distinct active `(date, hour)` pairs. Gaps
are datetime differences in hours, i.e. `(d2*24+h2) - (d1*24+h1)` for
well-formed slots. -/

/-- Absolute hour index of a `(date, hour)` point. -/
def hourIdx (p : Nat × Nat) : Int := (p.1 : Int) * 24 + (p.2 : Int)

/-- Lexicographic order on `(date, hour)` pairs (the sort key used by the
source). -/
def pairLe (a b : Nat × Nat) : Bool :=
  a.1 < b.1 || (a.1 = b.1 && a.2 ≤ b.2)

/-- Insert into a strictly sorted list, skipping duplicates. -/
def insPair (x : Nat × Nat) : List (Nat × Nat) → List (Nat × Nat)
  | [] => [x]
  | y :: ys =>
    if x = y then y :: ys
    else if pairLe x y then x :: y :: ys
    else y :: insPair x ys

/-- `sorted(list(set(...)))`: strictly sorted distinct pairs. -/
def sortedDedup (l : List (Nat × Nat)) : List (Nat × Nat) :=
  l.foldr insPair []

/-- The active `(date, hour)` pairs of a group's assigned slot set. -/
def activeHoursOf (assigned : List SlotKey) : List (Nat × Nat) :=
  sortedDedup (assigned.map fun k => (k.date, k.hour))

/-- Effective staffing lookup in `ConsecutiveConstraint._evaluate_sequence`:
first matching staffing exception wins, else the group's base
`staffing_size`, else 4 (Python: `staffing_size if staffing_size else 4`,
so a base size of 0 also falls back to 4). -/
def effectiveStaffing (staffing_size : Option Int)
    (exceptions : List StaffingException) (date hour : Nat) : Int :=
  let base := match staffing_size with
    | none => 4
    | some v => if v = 0 then 4 else v
  match exceptions.find? (fun exc =>
      (exc.start_date : Int) * 24 + exc.start_hour ≤ (date : Int) * 24 + hour &&
      (date : Int) * 24 + hour < (exc.end_date : Int) * 24 + exc.end_hour) with
  | some exc => exc.new_staffing_size
  | none => base

/-- `ConsecutiveConstraint._evaluate_sequence`. -/
def evaluateSequence (length : Int) (date hour : Nat)
    (staffing_size : Option Int) (exceptions : List StaffingException) : Int :=
  let staffing := effectiveStaffing staffing_size exceptions date hour
  let mc0 := staffing / 2
  let mc1 := if mc0 < 2 then 2 else mc0
  let max_consecutive := if staffing = 2 then 2 else mc1
  if length ≤ max_consecutive then length * CONSECUTIVE_BONUS_PER_HOUR
  else
    let excess := length - max_consecutive;
    -(excess ^ CONSECUTIVE_PENALTY_EXPONENT * CONSECUTIVE_PENALTY_MULTIPLIER)

/-- Walk of `ConsecutiveConstraint.calculate_global_score` over the tail
of the active-hours list, carrying the previous point, the running
sequence length and the accumulated score. -/
def consecWalk (ss : Option Int) (exc : List StaffingException) :
    List (Nat × Nat) → Nat × Nat → Int → Int → Int
  | [], prev, seq, score => score + evaluateSequence seq prev.1 prev.2 ss exc
  | p :: ps, prev, seq, score =>
    if hourIdx p - hourIdx prev = 1 then consecWalk ss exc ps p (seq + 1) score
    else consecWalk ss exc ps p 1 (score + evaluateSequence seq prev.1 prev.2 ss exc)

/-- `ConsecutiveConstraint.calculate_global_score`. -/
def consecutiveGlobalScore (assigned : List SlotKey) (ss : Option Int)
    (exc : List StaffingException) : Int :=
  match activeHoursOf assigned with
  | [] => 0
  | p :: ps => consecWalk ss exc ps p 1 0

/-- One boundary of `RestConstraint.calculate_global_score`. -/
def restGapScore (gap : Int) : Int :=
  if gap > 1 then
    let rest_time := gap - 1
    if rest_time < 6 then -((6 - rest_time) * REST_PENALTY)
    else if rest_time < 16 then -SHORT_REST_PENALTY
    else if rest_time ≥ 24 then LONG_REST_BONUS
    else 0
  else 0

def restWalk : List (Nat × Nat) → Nat × Nat → Int → Int
  | [], _, score => score
  | p :: ps, prev, score => restWalk ps p (score + restGapScore (hourIdx p - hourIdx prev))

/-- `RestConstraint.calculate_global_score`. -/
def restGlobalScore (assigned : List SlotKey) : Int :=
  match activeHoursOf assigned with
  | [] => 0
  | p :: ps => restWalk ps p 0

/-- `Group._calculate_total_score`: local constraint scores summed over
`_assigned_slots` (skipping Consecutive/Rest), plus the two global
scores. Pure in the state (no mutation). -/
def calcTotalScore (g : SGroup) (env : Env) (st : SchedState) : Int :=
  let assigned := (st.gstates g.id).assigned
  let localScore := assigned.foldl (fun sc k =>
    g.constraints.foldl (fun acc c =>
      match c with
      | .consecutive _ => acc
      | .rest _ => acc
      | _ => acc + c.calculate_score env st (env.infoOf k)) sc) 0
  let globalScore := g.constraints.foldl (fun acc c =>
    match c with
    | .consecutive _ => acc + consecutiveGlobalScore assigned g.staffing_size g.staffing_exceptions
    | .rest _ => acc + restGlobalScore assigned
    | _ => acc) 0
  localScore + globalScore

/-- `Group.get_score`: return the cached value when clean, else recompute
via `_calculate_total_score` and cache it. -/
def get_score (g : SGroup) (env : Env) (st : SchedState) : Int × SchedState :=
  let gs := st.gstates g.id
  match gs.dirty, gs.cached with
  | false, some v => (v, st)
  | _, _ =>
    let v := calcTotalScore g env st
    (v, setGState st g.id { gs with cached := some v, dirty := false })

/-! ### `scheduler.ScheduleState` -/

/-- `ScheduleState.time_points`: every `(date, hour)` of the schedule's
inclusive date range. -/
def timePoints (sch : Sched) : List (Nat × Nat) :=
  ((List.range (sch.end_date + 1 - sch.start_date)).map (sch.start_date + ·)).flatMap
    fun d => (List.range 24).map fun h => (d, h)

/-- `slot_map.get(key)` followed by reading the live `group_id`. -/
def slotGid (env : Env) (st : SchedState) (k : SlotKey) : Option GroupId :=
  if k ∈ env.keys then st.assign k else none

/-- `ScheduleState.get_simultaneous_score`. -/
def get_simultaneous_score (env : Env) (st : SchedState) : Int :=
  (timePoints env.sched).foldl (fun score p =>
    match slotGid env st ⟨p.1, p.2, 1⟩, slotGid env st ⟨p.1, p.2, 2⟩ with
    | some g1, some g2 =>
      if g1 ≠ DISABLED_ID && g2 ≠ DISABLED_ID && g1 = g2 then
        score + SIMULTANEOUS_BONUS
      else score
    | _, _ => score) 0

/-- `ScheduleState.get_staffing_at`: staffing exceptions tried first (the
date parses never fail in the model), else the base `staffing_size`, else
4. Unlike `_evaluate_sequence`, this uses an `is not None` check, so a
base size of 0 stays 0. -/
def get_staffing_at (g : SGroup) (date hour : Nat) : Int :=
  match g.staffing_exceptions.find? (fun exc =>
      (exc.start_date : Int) * 24 + exc.start_hour ≤ (date : Int) * 24 + hour &&
      (date : Int) * 24 + hour < (exc.end_date : Int) * 24 + exc.end_hour) with
  | some exc => exc.new_staffing_size
  | none => g.staffing_size.getD 4

/-- Whether either post at `(date, hour)` holds `gid`
(first half of the `is_active` test in
`ScheduleState.get_group_consecutive_score`). -/
def postActive (env : Env) (st : SchedState) (gid : GroupId) (p : Nat × Nat) : Bool :=
  [1, 2].any fun pos =>
    match slotGid env st ⟨p.1, p.2, pos⟩ with
    | some g => g = gid
    | none => false

/-- Whether an `ActivityWindowConstraint` of the group covers the point
(second half of the `is_active` test; `day_of_week` is read from the
position-1 slot, defaulting to 0). -/
def windowActive (env : Env) (g : SGroup) (p : Nat × Nat) : Bool :=
  let dow := if (⟨p.1, p.2, 1⟩ : SlotKey) ∈ env.keys then
      (env.infoOf ⟨p.1, p.2, 1⟩).day_of_week else 0
  g.constraints.any fun c =>
    match c with
    | .activityWindow _ windows =>
      windows.any fun w => w.day = dow && w.start_hour ≤ p.2 && p.2 < w.end_hour
    | _ => false

/-- Accumulator of the `get_group_consecutive_score` walk. -/
structure DeadWalkAcc where
  score : Int
  current_seq : Int
  last_active_idx : Int
deriving DecidableEq

/-- One time point of the `ScheduleState.get_group_consecutive_score`
walk. -/
def deadWalkStep (env : Env) (st : SchedState) (g : SGroup) (gid : GroupId)
    (acc : DeadWalkAcc) (ip : Nat × (Nat × Nat)) : DeadWalkAcc :=
  let idx : Int := ip.1
  let p := ip.2
  let current_staffing := get_staffing_at g p.1 p.2
  let desired_seq : Int :=
    if current_staffing ≤ 2 then 2 else max 2 (current_staffing / 2)
  let is_active := postActive env st gid p || windowActive env g p
  if is_active then
    let score :=
      if acc.current_seq = 0 && acc.last_active_idx ≠ -999 then
        let rest_time := idx - acc.last_active_idx - 1
        if rest_time < 6 then acc.score - (6 - rest_time) * REST_PENALTY
        else if rest_time < 16 then acc.score - SHORT_REST_PENALTY
        else if rest_time ≥ 24 then acc.score + LONG_REST_BONUS
        else acc.score
      else acc.score
    ⟨score, acc.current_seq + 1, idx⟩
  else
    if acc.current_seq > 0 then
      let score :=
        if acc.current_seq ≤ desired_seq then
          acc.score + acc.current_seq * CONSECUTIVE_BONUS_PER_HOUR
        else
          acc.score - (acc.current_seq - desired_seq) ^ CONSECUTIVE_PENALTY_EXPONENT *
            CONSECUTIVE_PENALTY_MULTIPLIER
      ⟨score, 0, acc.last_active_idx⟩
    else acc

/-- `ScheduleState.get_group_consecutive_score`: the time-point scan that
marks a point active if a post holds the group OR an ActivityWindow
covers it. (This method is defined in `scheduler.py` but is called from
nowhere; the optimizer's global score uses `Group.get_score` instead.) -/
def get_group_consecutive_score (env : Env) (st : SchedState) (gid : GroupId) : Int :=
  if gid = DISABLED_ID then 0
  else
    match env.groups.find? (fun g => g.id = gid) with
    | none => 0
    | some g =>
      ((timePoints env.sched).enum.foldl (deadWalkStep env st g gid) ⟨0, 0, -999⟩).score

/-! ### `scheduler.Scheduler` shared helpers -/

/-- `Scheduler._update_usage_for_slot`: bump `rule_usage` for every
staffing rule of the group matching the slot, keyed
`(group.id, c_idx, r_idx)`. -/
def bumpRuleUsage (st : SchedState) (key : GroupId × Nat × Nat) (delta : Int) :
    SchedState :=
  { st with rule_usage := Function.update st.rule_usage key (st.rule_usage key + delta) }

/-- Inner loop of `_update_usage_for_slot` (`for r_idx, r in enumerate(...)`). -/
def ruleUsageLoop (s : ScheduleSlot) (gid : GroupId) (ci : Nat) (delta : Int) :
    List RuleDict → Nat → SchedState → SchedState
  | [], _, st => st
  | r :: rs, ri, st =>
    ruleUsageLoop s gid ci delta rs (ri + 1)
      (if ruleMatches r s then bumpRuleUsage st (gid, ci, ri) delta else st)

/-- Outer loop of `_update_usage_for_slot`
(`for c_idx, constraint in enumerate(group.constraints)`). -/
def constraintUsageLoop (s : ScheduleSlot) (gid : GroupId) (delta : Int) :
    List Constraint → Nat → SchedState → SchedState
  | [], _, st => st
  | c :: cs, ci, st =>
    constraintUsageLoop s gid delta cs (ci + 1)
      (match c with
       | .staffingRules _ rules => ruleUsageLoop s gid ci delta rules 0 st
       | _ => st)

def update_usage_for_slot (st : SchedState) (s : ScheduleSlot) (g : SGroup)
    (delta : Int) : SchedState :=
  constraintUsageLoop s g.id delta g.constraints 0 st

/-- `Scheduler._check_coupling_requirement`. -/
def check_coupling_requirement (g : SGroup) (s : ScheduleSlot) : Bool :=
  g.constraints.any fun c =>
    match c with
    | .staffingRules _ rules => rules.any fun r => ruleMatches r s && r.force_coupling
    | _ => false

/-- `Scheduler._check_staffing_rules_initial`. -/
def check_staffing_rules_initial (st : SchedState) (g : SGroup) (s : ScheduleSlot)
    (other_group_id : Option GroupId) : Bool :=
  g.constraints.enum.all fun ci =>
    match ci.2 with
    | .staffingRules _ rules =>
      rules.enum.all fun ri =>
        if ruleMatches ri.2 s then
          (match ri.2.max_capacity with
           | none => true
           | some cap =>
             let increment : Int :=
               if ri.2.force_coupling && other_group_id = none then 2 else 1
             st.rule_usage (g.id, ci.1, ri.1) + increment ≤ cap) &&
          (if ri.2.force_coupling then
             g.can_guard_simultaneously &&
             (match other_group_id with
              | some o => o = g.id
              | none => true)
           else true)
        else true
    | _ => true

/-- `Scheduler._check_staffing_rules_swap`: capacity against the current
`rule_usage` (+1 only when the source slot is outside the rule window),
and coupling against the sibling of the target. -/
def check_staffing_rules_swap (env : Env) (st : SchedState) (g : SGroup)
    (source target : ScheduleSlot) : Bool :=
  g.constraints.enum.all fun ci =>
    match ci.2 with
    | .staffingRules _ rules =>
      rules.enum.all fun ri =>
        if ruleMatches ri.2 target then
          (match ri.2.max_capacity with
           | none => true
           | some cap =>
             let current := st.rule_usage (g.id, ci.1, ri.1)
             let new_usage := if ruleMatches ri.2 source then current else current + 1
             new_usage ≤ cap) &&
          (if ri.2.force_coupling then
             g.can_guard_simultaneously &&
             (let og := match st.ctx_other_group_id with
               | some o => some o
               | none =>
                 match get_other_slot env target.key with
                 | some k => st.assign k
                 | none => none
              og = some g.id)
           else true)
        else true
    | _ => true

/-- `Scheduler._calculate_global_score`: `Group.get_score` summed over all
groups (threading the cache state) plus the simultaneous score. -/
def calculate_global_score (env : Env) (st : SchedState) : Int × SchedState :=
  let sc := env.groups.foldl (fun (acc : Int × SchedState) g =>
    let vs := get_score g env acc.2
    (acc.1 + vs.1, vs.2)) (0, st)
  (sc.1 + get_simultaneous_score env sc.2, sc.2)

/-! ### The optimizer's move machinery
(`_try_apply_move`, `_revert_move`, `_apply_move_permanent`). A move is a
list of swap pairs of slot identities: one pair for a single swap, two
pairs for a block swap. -/

abbrev Move := List (SlotKey × SlotKey)

/-- Phase 1 of `_try_apply_move`: `notify_removal` + usage decrement for
the (current) group of each slot of each pair. Slot assignments are not
touched here. -/
def tryApplyRemovals (env : Env) (st : SchedState) (pairs : Move) : SchedState :=
  pairs.foldl (fun st p =>
    let st := match get_group env (st.assign p.1) with
      | some g => update_usage_for_slot (notify_removal g st (env.infoOf p.1)) (env.infoOf p.1) g (-1)
      | none => st
    match get_group env (st.assign p.2) with
      | some g => update_usage_for_slot (notify_removal g st (env.infoOf p.2)) (env.infoOf p.2) g (-1)
      | none => st) st

/-- The sibling-group override loop of `_try_apply_move`: when the sibling
slot is itself part of the swap, take the group that will land on it
(pre-apply, slot `group_id`s are still the originals). -/
def swapOverrideGid (st : SchedState) (pairs : Move) (otherK : Option SlotKey)
    (base : Option GroupId) : Option GroupId :=
  pairs.foldl (fun acc p =>
    if otherK = some p.1 then st.assign p.2
    else if otherK = some p.2 then st.assign p.1
    else acc) base

/-- Validity check of one swap pair in `_try_apply_move`: the group
leaving each side is checked at its destination, with
`context.other_group_id` / `context.group_id` set (and left) accordingly. -/
def tryApplyCheckPair (env : Env) (pairs : Move) (acc : Bool × SchedState)
    (p : SlotKey × SlotKey) : Bool × SchedState :=
  let valid := acc.1
  let st := acc.2
  let g1 := get_group env (st.assign p.1)
  let g2 := get_group env (st.assign p.2)
  let vs1 : Bool × SchedState := match g1 with
    | some g =>
      let otherS2 := get_other_slot env p.2
      let base := match otherS2 with | some k => st.assign k | none => none
      let og := swapOverrideGid st pairs otherS2 base
      let st := { st with ctx_other_group_id := og, ctx_group_id := some g.id }
      let av := g.is_available env st (env.infoOf p.2)
      let ok2 := check_staffing_rules_swap env av.2 g (env.infoOf p.1) (env.infoOf p.2)
      (valid && av.1 && ok2, av.2)
    | none => (valid, st)
  match g2 with
  | some g =>
    let st := vs1.2
    let otherS1 := get_other_slot env p.1
    let base := match otherS1 with | some k => st.assign k | none => none
    let og := swapOverrideGid st pairs otherS1 base
    let st := { st with ctx_other_group_id := og, ctx_group_id := some g.id }
    let av := g.is_available env st (env.infoOf p.1)
    let ok2 := check_staffing_rules_swap env av.2 g (env.infoOf p.2) (env.infoOf p.1)
    (vs1.1 && av.1 && ok2, av.2)
  | none => vs1

/-- The apply branch of `_try_apply_move`: swap the two `group_id`s, then
`notify_assignment` + usage increment at each group's new slot. -/
def applySwapPair (env : Env) (st : SchedState) (p : SlotKey × SlotKey) : SchedState :=
  let g1_id := st.assign p.1
  let g2_id := st.assign p.2
  let st := { st with assign := Function.update (Function.update st.assign p.1 g2_id) p.2 g1_id }
  let st := match get_group env g1_id with
    | some g => update_usage_for_slot (notify_assignment g st (env.infoOf p.2)) (env.infoOf p.2) g 1
    | none => st
  match get_group env g2_id with
  | some g => update_usage_for_slot (notify_assignment g st (env.infoOf p.1)) (env.infoOf p.1) g 1
  | none => st

/-- The restore branch of `_try_apply_move` (checks failed): re-run
`notify_assignment` + usage increment for each slot's unchanged group. -/
def restorePair (env : Env) (st : SchedState) (p : SlotKey × SlotKey) : SchedState :=
  let st := match get_group env (st.assign p.1) with
    | some g => update_usage_for_slot (notify_assignment g st (env.infoOf p.1)) (env.infoOf p.1) g 1
    | none => st
  match get_group env (st.assign p.2) with
  | some g => update_usage_for_slot (notify_assignment g st (env.infoOf p.2)) (env.infoOf p.2) g 1
  | none => st

/-- `Scheduler._try_apply_move`. -/
def try_apply_move (env : Env) (st : SchedState) (pairs : Move) : Bool × SchedState :=
  let st := tryApplyRemovals env st pairs
  let vs := pairs.foldl (tryApplyCheckPair env pairs) (true, st)
  if vs.1 then (true, pairs.foldl (applySwapPair env) vs.2)
  else (false, pairs.foldl (restorePair env) vs.2)

/-- One pair of `Scheduler._revert_move`: remove both groups from their
swapped positions, swap the `group_id`s back, re-add both groups at their
original positions. -/
def revertPair (env : Env) (st : SchedState) (p : SlotKey × SlotKey) : SchedState :=
  let g2 := get_group env (st.assign p.1)
  let g1 := get_group env (st.assign p.2)
  let st := match g2 with
    | some g => update_usage_for_slot (notify_removal g st (env.infoOf p.1)) (env.infoOf p.1) g (-1)
    | none => st
  let st := match g1 with
    | some g => update_usage_for_slot (notify_removal g st (env.infoOf p.2)) (env.infoOf p.2) g (-1)
    | none => st
  let temp := st.assign p.1
  let st := { st with assign := Function.update (Function.update st.assign p.1 (st.assign p.2)) p.2 temp }
  let st := match g1 with
    | some g => update_usage_for_slot (notify_assignment g st (env.infoOf p.1)) (env.infoOf p.1) g 1
    | none => st
  match g2 with
  | some g => update_usage_for_slot (notify_assignment g st (env.infoOf p.2)) (env.infoOf p.2) g 1
  | none => st

/-- `Scheduler._revert_move`. -/
def revert_move (env : Env) (st : SchedState) (pairs : Move) : SchedState :=
  pairs.foldl (revertPair env) st

/-- One pair of `Scheduler._apply_move_permanent` (the move was reverted,
so it is applied again; the trailing `state.update_slot` calls only touch
`ScheduleState` counters that no scoring path reads and set each slot's
`group_id` to its current value, so they are no-ops here). -/
def applyPermanentPair (env : Env) (st : SchedState) (p : SlotKey × SlotKey) : SchedState :=
  let g1 := get_group env (st.assign p.1)
  let g2 := get_group env (st.assign p.2)
  let st := match g1 with
    | some g => update_usage_for_slot (notify_removal g st (env.infoOf p.1)) (env.infoOf p.1) g (-1)
    | none => st
  let st := match g2 with
    | some g => update_usage_for_slot (notify_removal g st (env.infoOf p.2)) (env.infoOf p.2) g (-1)
    | none => st
  let temp := st.assign p.1
  let st := { st with assign := Function.update (Function.update st.assign p.1 (st.assign p.2)) p.2 temp }
  let st := match g1 with
    | some g => update_usage_for_slot (notify_assignment g st (env.infoOf p.2)) (env.infoOf p.2) g 1
    | none => st
  match g2 with
  | some g => update_usage_for_slot (notify_assignment g st (env.infoOf p.1)) (env.infoOf p.1) g 1
  | none => st

/-- `Scheduler._apply_move_permanent`. -/
def apply_move_permanent (env : Env) (st : SchedState) (pairs : Move) : SchedState :=
  pairs.foldl (applyPermanentPair env) st

/-! ### `Scheduler.improve_schedule` -/

/-- Initial live `group_id` per slot identity (last slot wins, matching
`slot_map` construction). -/
def initAssign (sch : Sched) : SlotKey → Option GroupId := fun k =>
  match sch.slots.reverse.find? (fun s => s.key = k) with
  | some s => s.group_id
  | none => none

/-- A `SchedState` with fresh context, counters and group caches (the
state right after `improve_schedule` resets `rule_usage`, invalidates
every group cache and clears every `_assigned_slots`). -/
def freshState (sch : Sched) : SchedState :=
  { assign := initAssign sch, rule_usage := fun _ => 0, usage_counters := fun _ => 0,
    gstates := fun _ => GState.initial, ctx_group_id := none,
    ctx_other_group_id := none, ctx_is_initial_fill := false }

/-- The re-registration loop at the start of `improve_schedule` (also run,
with `is_initial_fill := true`, at the start of `fill_schedule`):
`notify_assignment` + usage increment for every assigned, non-disabled
slot whose group exists. -/
def registerAssigned (env : Env) (st : SchedState) : SchedState :=
  env.sched.slots.foldl (fun acc s =>
    match s.group_id with
    | some gid =>
      if gid = DISABLED_ID then acc
      else
        match get_group env (some gid) with
        | some g => update_usage_for_slot (notify_assignment g acc s) s g 1
        | none => acc
    | none => acc) st

/-- `mutable_slots`: unlocked and not disabled. -/
def mutableSlots (env : Env) : List ScheduleSlot :=
  env.sched.slots.filter fun s => !s.is_locked && s.group_id ≠ some DISABLED_ID

/-- The keys of `slots_by_time` in sorted order (`sorted(list(...))`). -/
def timeKeysOf (ms : List ScheduleSlot) : List (Nat × Nat) :=
  sortedDedup (ms.map fun s => (s.date, s.hour))

/-- `slots_by_time[key]`: the mutable slots of one time bucket, in
encounter order. -/
def bucketSlots (ms : List ScheduleSlot) (p : Nat × Nat) : List ScheduleSlot :=
  ms.filter fun s => (s.date, s.hour) = p

/-- Candidate moves for a bucket pair: the block swap when both buckets
have exactly two posts, then all single swaps. -/
def movesFor (slots1 slots2 : List ScheduleSlot) : List Move :=
  (match slots1, slots2 with
   | [a, b], [c, d] => [[(a.key, c.key), (b.key, d.key)]]
   | _, _ => []) ++
  (slots1.flatMap fun a => slots2.map fun b => [(a.key, b.key)])

/-- Best-candidate tracking for one `t1` bucket. -/
structure BestAcc where
  st : SchedState
  best : Option Move
  bestDiff : Int

/-- Evaluate one candidate: tentatively apply, rescore, track the best
strictly-improving diff, revert. (The post-revert `state.update_slot`
calls are no-ops for scoring, see `applyPermanentPair`.) -/
def evalMove (env : Env) (currentTotal : Int) (acc : BestAcc) (mv : Move) : BestAcc :=
  let r := try_apply_move env acc.st mv
  if r.1 then
    let ns := calculate_global_score env r.2
    let diff := ns.1 - currentTotal
    let best := if diff > acc.bestDiff then some mv else acc.best
    let bestDiff := if diff > acc.bestDiff then diff else acc.bestDiff
    ⟨revert_move env ns.2 mv, best, bestDiff⟩
  else ⟨r.2, acc.best, acc.bestDiff⟩

/-- One `t1` iteration of the search loop: scan every later bucket's
candidate moves, then commit the best strictly-improving move (if any)
and add its measured diff to the running total. -/
def processBucket (env : Env) (ms : List ScheduleSlot) (acc : Int × SchedState)
    (t1 : Nat × Nat) (laterKeys : List (Nat × Nat)) : Int × SchedState :=
  let slots1 := bucketSlots ms t1
  let moves := laterKeys.flatMap fun t2 => movesFor slots1 (bucketSlots ms t2)
  let b := moves.foldl (evalMove env acc.1) ⟨acc.2, none, 0⟩
  match b.best with
  | some mv => (acc.1 + b.bestDiff, apply_move_permanent env b.st mv)
  | none => (acc.1, b.st)

def improveLoop (env : Env) (ms : List ScheduleSlot) :
    List (Nat × Nat) → Int × SchedState → Int × SchedState
  | [], acc => acc
  | t1 :: rest, acc => improveLoop env ms rest (processBucket env ms acc t1 rest)

/-- `Scheduler.improve_schedule`: returns the final run state (the output
schedule's slot assignments are `.assign`). With fewer than two mutable
slots the source returns before re-initializing any state. -/
def improve_schedule (env : Env) : SchedState :=
  let ms := mutableSlots env
  if ms.length < 2 then freshState env.sched
  else
    let st := registerAssigned env (freshState env.sched)
    let ts := calculate_global_score env st
    (improveLoop env ms (timeKeysOf ms) (ts.1, ts.2)).2

/-- The output `Schedule` of a run: every slot's `group_id` replaced by
its live value. -/
def schedAfter (env : Env) (st : SchedState) : Sched :=
  { env.sched with slots := env.sched.slots.map fun s => { s with group_id := st.assign s.key } }

/-- The total score `improve_schedule` computes and prints on entry
("Initial Score"): rebuild fresh state, register assignments, then
`_calculate_global_score`. This is the schedule's total score
(Consecutive + Rest + Simultaneous plus the local constraint scores,
summed over all groups). -/
def global_score_of (groups : List SGroup) (sch : Sched) : Int :=
  (calculate_global_score ⟨groups, sch⟩ (registerAssigned ⟨groups, sch⟩ (freshState sch))).1

/-- `Scheduler.validate_schedule` (`scheduler.py` lines 590-592): returns
the empty error list unconditionally. -/
def validate_schedule (_env : Env) : List String := []

/-! ### `Scheduler.fill_schedule` -/

/-- Python `round`: round half to even (used on the exact rational values;
the source rounds the corresponding binary floats). -/
def roundHalfEven (q : ℚ) : Int :=
  let f := ⌊q⌋
  let r := q - f
  if r < 1/2 then f
  else if r > 1/2 then f + 1
  else if f % 2 = 0 then f else f + 1

def availableGroupsOf (groups : List SGroup) : List SGroup :=
  groups.filter (·.validate)

def emptySlotsOf (sch : Sched) : List ScheduleSlot :=
  sch.slots.filter fun s => s.group_id = none

def filledSlotsOf (sch : Sched) : List ScheduleSlot :=
  sch.slots.filter fun s => s.group_id.isSome && s.group_id ≠ some DISABLED_ID

/-- `current_counts`: zero for every available group, plus one per
already-filled slot whose group id is a key. -/
def initialCounts (avail : List SGroup) (filled : List ScheduleSlot) : GroupId → Int :=
  filled.foldl (fun cnt s =>
    match s.group_id with
    | some gid =>
      if avail.any (fun g => g.id = gid) then
        Function.update cnt gid (cnt gid + 1)
      else cnt
    | none => cnt) (fun _ => 0)

/-- The `group_targets` computation of `fill_schedule` (steps 1 of the
fill algorithm). `group_targets.get(g.id, 0)` reads default to 0, which
the total function models directly. -/
def fillTargets (avail : List SGroup) (counts : GroupId → Int)
    (total_slots_to_fill : Int) (weeks : ℚ) : GroupId → Int :=
  let fixedq := avail.filter fun g => g.weekly_guard_quota.isSome
  let prop := avail.filter fun g => g.weekly_guard_quota = none && g.staffing_size.isSome
  let t1 : GroupId → Int := fixedq.foldl (fun t g =>
    Function.update t g.id (roundHalfEven ((g.weekly_guard_quota.getD 0 : ℚ) * weeks)))
    (fun _ => 0)
  let fixed_slots_needed : Int := fixedq.foldl (fun acc g =>
    acc + max 0 (t1 g.id - counts g.id)) 0
  let remaining : Int := total_slots_to_fill - fixed_slots_needed
  let total_staffing : Int := prop.foldl (fun acc g => acc + g.staffing_size.getD 0) 0
  let t2 : GroupId → Int :=
    if total_staffing > 0 then
      prop.foldl (fun t g =>
        let share : ℚ := ((g.staffing_size.getD 0 : ℚ) / (total_staffing : ℚ)) * (remaining : ℚ)
        Function.update t g.id (counts g.id + roundHalfEven share)) t1
    else t1
  let needed_sum : Int := avail.foldl (fun acc g => acc + max 0 (t2 g.id - counts g.id)) 0
  let diff := total_slots_to_fill - needed_sum
  if diff ≠ 0 then
    match prop with
    | p :: _ => Function.update t2 p.id (t2 p.id + diff)
    | [] =>
      match fixedq with
      | f :: _ => Function.update t2 f.id (t2 f.id + diff)
      | [] => t2
  else t2

/-- The candidate score of `_select_best_group`: quota-progress term
(-1000 when the quota ratio has reached 1, -2000 when there is no
positive target), plus the group's local constraint score, plus the +50
simultaneous-continuity nudge. Exact rationals model the source's float
arithmetic. -/
def candidateScore (counts targets : GroupId → Int) (g : SGroup)
    (localScore : Int) (other : Option GroupId) : ℚ :=
  let target := targets g.id
  let quotaTerm : ℚ :=
    if target > 0 then
      let ratio : ℚ := (counts g.id : ℚ) / (target : ℚ)
      if ratio ≥ 1 then -1000 else (1 - ratio) * 100
    else -2000
  let nudge : ℚ := if other = some g.id && g.can_guard_simultaneously then 50 else 0
  quotaTerm + (localScore : ℚ) + nudge

/-- Candidate accumulation state for `_select_best_group`. -/
structure CandAcc where
  st : SchedState
  cands : List (ℚ × SGroup)

/-- One group of the `_select_best_group` loop: feasibility filters
(hard constraints, initial staffing rules, simultaneous-capability on the
sibling), then the candidate score. -/
def selectStep (env : Env) (counts targets : GroupId → Int) (s : ScheduleSlot)
    (acc : CandAcc) (g : SGroup) : CandAcc :=
  let av := g.is_available env acc.st s
  let st := av.2
  if !av.1 then ⟨st, acc.cands⟩
  else if !check_staffing_rules_initial st g s st.ctx_other_group_id then ⟨st, acc.cands⟩
  else
    let other := st.ctx_other_group_id
    if other = some g.id && !g.can_guard_simultaneously then ⟨st, acc.cands⟩
    else
      let cs := g.calculate_score env st s
      ⟨cs.2, acc.cands ++ [(candidateScore counts targets g cs.1 other, g)]⟩

/-- Stable descending insertion: an element goes before every
strictly-smaller key and before no equal key of the already-sorted tail,
reproducing Python's stable `sort(key=..., reverse=True)`. -/
def insertCandDesc (x : ℚ × SGroup) : List (ℚ × SGroup) → List (ℚ × SGroup)
  | [] => [x]
  | y :: ys => if x.1 ≥ y.1 then x :: y :: ys else y :: insertCandDesc x ys

def sortCandsDesc : List (ℚ × SGroup) → List (ℚ × SGroup)
  | [] => []
  | x :: xs => insertCandDesc x (sortCandsDesc xs)

/-- `Scheduler._select_best_group`. -/
def select_best_group (env : Env) (st : SchedState) (groups : List SGroup)
    (counts targets : GroupId → Int) (s : ScheduleSlot) : Option SGroup × SchedState :=
  let acc := groups.foldl (selectStep env counts targets s) ⟨st, []⟩
  match sortCandsDesc acc.cands with
  | [] => (none, acc.st)
  | c :: _ => (some c.2, acc.st)

/-- `Scheduler._assign_slot`. -/
def assign_slot (_env : Env) (st : SchedState) (s : ScheduleSlot) (g : SGroup) : SchedState :=
  let st := { st with assign := Function.update st.assign s.key (some g.id) }
  update_usage_for_slot (notify_assignment g st s) s g 1

/-- Loop state of the fill loop. -/
structure FillAcc where
  st : SchedState
  counts : GroupId → Int
  filled_in_loop : List SlotKey

/-- One slot of the fill loop: skip slots already filled, select the best
feasible group, then assign — atomically with the sibling when the
selected group's staffing rule forces coupling. -/
def fillStep (env : Env) (avail : List SGroup) (targets : GroupId → Int)
    (acc : FillAcc) (k : SlotKey) : FillAcc :=
  if k ∈ acc.filled_in_loop then acc
  else if (acc.st.assign k).isSome then acc
  else
    let s := env.infoOf k
    let otherS := get_other_slot env k
    let og := match otherS with
      | some ok =>
        (match acc.st.assign ok with
         | some gid => if gid = DISABLED_ID then none else some gid
         | none => none)
      | none => none
    let st0 := { acc.st with ctx_other_group_id := og, ctx_is_initial_fill := true }
    let sel := select_best_group env st0 avail acc.counts targets s
    match sel.1 with
    | none => { acc with st := sel.2 }
    | some g =>
      if check_coupling_requirement g s then
        if !g.can_guard_simultaneously then { acc with st := sel.2 }
        else
          match otherS with
          | some ok =>
            if sel.2.assign ok = none then
              let st1 := assign_slot env sel.2 s g
              let st2 := assign_slot env st1 (env.infoOf ok) g
              ⟨st2, Function.update acc.counts g.id (acc.counts g.id + 2),
                acc.filled_in_loop ++ [ok]⟩
            else { acc with st := sel.2 }
          | none => { acc with st := sel.2 }
      else
        ⟨assign_slot env sel.2 s g,
          Function.update acc.counts g.id (acc.counts g.id + 1), acc.filled_in_loop⟩

/-- `Scheduler.fill_schedule`. `order` is the shuffled empty-slot list
(`random.shuffle` modelled as an explicit permutation parameter). -/
def fill_schedule (groups : List SGroup) (sch : Sched) (order : List SlotKey) : SchedState :=
  let env : Env := ⟨groups, sch⟩
  let st := registerAssigned env (freshState sch)
  let avail := availableGroupsOf groups
  if avail.isEmpty then st
  else
    let empty := emptySlotsOf sch
    if empty.isEmpty then st
    else
      let total : Int := empty.length
      let days_diff : Int := (sch.end_date : Int) - (sch.start_date : Int) + 1
      let weeks : ℚ := (days_diff : ℚ) / 7
      let counts := initialCounts avail (filledSlotsOf sch)
      let targets := fillTargets avail counts total weeks
      (order.foldl (fillStep env avail targets) ⟨st, counts, []⟩).st

/-! ### Serialization (`to_dict` / `from_dict`, `constraints/factory.py`) -/

/-- The dict shape `{type, ...fields, uid?}` produced and consumed by the
constraint classes (unused keys keep their defaults). -/
structure ConstraintDict where
  type_ : String
  rules : List RuleDict := []
  windows : List RuleDict := []
  dcs : List DateRuleDict := []
  allowed : Option Bool := none
  uid : Option String := none
deriving DecidableEq

/-- `to_dict` of each constraint class. `SimultaneousConstraint`,
`ConsecutiveConstraint` and `RestConstraint` serialize no `uid`. -/
def Constraint.to_dict : Constraint → ConstraintDict
  | .unavailability u rules => { type_ := "unavailability", rules := rules, uid := some u }
  | .activityWindow u ws => { type_ := "activity_window", windows := ws, uid := some u }
  | .dateSpecific u dcs => { type_ := "date_specific", dcs := dcs, uid := some u }
  | .staffingRules u rules => { type_ := "staffing_rules", rules := rules, uid := some u }
  | .simultaneous _ allowed => { type_ := "simultaneous", allowed := some allowed }
  | .consecutive _ => { type_ := "consecutive" }
  | .rest _ => { type_ := "rest" }

/-- `StaffingRuleConstraint.__init__` / `from_dict`: give every rule
missing a `uid` a fresh one (rules enumerated from index `i`). -/
def fillRuleUidsFrom (freshRule : Nat → String) (i : Nat) :
    List RuleDict → List RuleDict
  | [] => []
  | r :: rs =>
    (if r.uid = none then { r with uid := some (freshRule i) } else r) ::
      fillRuleUidsFrom freshRule (i + 1) rs

def fillRuleUids (freshRule : Nat → String) (rules : List RuleDict) : List RuleDict :=
  fillRuleUidsFrom freshRule 0 rules

/-- `ConstraintFactory.create_from_dict`: closed registry dispatch; an
unregistered type tag raises `ValueError`. `fresh` / `freshRule` model
the uuids generated by the constructors. -/
def create_from_dict (fresh : String) (freshRule : Nat → String)
    (d : ConstraintDict) : Except String Constraint :=
  if d.type_ = "unavailability" then .ok (.unavailability (d.uid.getD fresh) d.rules)
  else if d.type_ = "activity_window" then .ok (.activityWindow (d.uid.getD fresh) d.windows)
  else if d.type_ = "date_specific" then .ok (.dateSpecific (d.uid.getD fresh) d.dcs)
  else if d.type_ = "staffing_rules" then
    .ok (.staffingRules (d.uid.getD fresh) (fillRuleUids freshRule d.rules))
  else if d.type_ = "simultaneous" then .ok (.simultaneous fresh (d.allowed.getD true))
  else if d.type_ = "consecutive" then .ok (.consecutive fresh)
  else if d.type_ = "rest" then .ok (.rest fresh)
  else .error ("Unknown constraint type: " ++ d.type_)

/-- The dict shape of `Group.to_dict` (the modern, `constraints`-keyed
format; the legacy migration keys of `Group.from_dict` are outside the
modelled scope). -/
structure GroupDict where
  id : GroupId
  name : String
  staffing_size : Option Int := none
  weekly_guard_quota : Option Int := none
  staffing_exceptions : List StaffingException := []
  constraintsField : List ConstraintDict := []
  can_guard_simultaneously : Option Bool := none
  color : Option String := none
deriving DecidableEq

def SGroup.to_dict (g : SGroup) : GroupDict :=
  { id := g.id, name := g.name, staffing_size := g.staffing_size,
    weekly_guard_quota := g.weekly_guard_quota,
    staffing_exceptions := g.staffing_exceptions,
    constraintsField := g.constraints.map Constraint.to_dict,
    can_guard_simultaneously := some g.can_guard_simultaneously,
    color := some g.color }

/-- The constraint-deserialization loop of `Group.from_dict`:
`try: constraints.append(ConstraintFactory.create_from_dict(c_data))
except ValueError: pass` — a failing dict is skipped and the loop
continues (dicts enumerated from index `i` for the uuid supply). -/
def parseConstraintDicts (freshC : Nat → String) (freshR : Nat → Nat → String)
    (i : Nat) : List ConstraintDict → List Constraint
  | [] => []
  | cd :: cds =>
    match create_from_dict (freshC i) (freshR i) cd with
    | .ok c => c :: parseConstraintDicts freshC freshR (i + 1) cds
    | .error _ => parseConstraintDicts freshC freshR (i + 1) cds

/-- `Group.from_dict` on the modern format: the constraint dicts go
through `parseConstraintDicts` (unknown types silently skipped), then the
`Group(...)` constructor runs `__post_init__`. `freshC i` / `freshR i j`
model the constructor uuids of the i-th constraint dict, `u1 u2 u3` those
of the injected defaults, and `freshColor` the generated pastel color. -/
def group_from_dict (freshC : Nat → String) (freshR : Nat → Nat → String)
    (u1 u2 u3 : String) (freshColor : String) (d : GroupDict) : SGroup :=
  let cs := parseConstraintDicts freshC freshR 0 d.constraintsField
  postInit u1 u2 u3
    { id := d.id, name := d.name, staffing_size := d.staffing_size,
      weekly_guard_quota := d.weekly_guard_quota,
      staffing_exceptions := d.staffing_exceptions, constraints := cs,
      can_guard_simultaneously := d.can_guard_simultaneously.getD true,
      color := d.color.getD freshColor }

/-! ### Auxiliary definitions used by the verification statements -/

/-- The type tags of the closed `ConstraintFactory._registry`. -/
def registeredTypeTags : List String :=
  ["unavailability", "activity_window", "date_specific", "staffing_rules",
   "simultaneous", "consecutive", "rest"]

/-- The class invariant of `StaffingRuleConstraint`: every rule dict
carries a `uid` (ensured by `__init__`). -/
def staffingUidsPresent : Constraint → Bool
  | .staffingRules _ rules => rules.all fun r => r.uid.isSome
  | _ => true

/-- Uid regeneration under serialization round-trip: the three variants
whose `to_dict` omits `uid` come back with the constructor's fresh uid. -/
def regenUid (fresh : String) : Constraint → Constraint
  | .simultaneous _ a => .simultaneous fresh a
  | .consecutive _ => .consecutive fresh
  | .rest _ => .rest fresh
  | c => c

/-- Indexed uid regeneration across a constraint list (what a serialize /
deserialize round trip does to the uids). -/
def regenUidsFrom (freshC : Nat → String) (i : Nat) : List Constraint → List Constraint
  | [] => []
  | c :: cs => regenUid (freshC i) c :: regenUidsFrom freshC (i + 1) cs

/-- The `allowed` flag of the first Simultaneous constraint, if any. -/
def firstSimAllowed : List Constraint → Option Bool
  | [] => none
  | .simultaneous _ a :: _ => some a
  | _ :: cs => firstSimAllowed cs

/-- First list element attaining the maximum key (later elements replace
the champion only when strictly greater — encounter-order tie-break). -/
def firstMaxCand : List (ℚ × SGroup) → Option (ℚ × SGroup)
  | [] => none
  | x :: xs =>
    match firstMaxCand xs with
    | none => some x
    | some m => if m.1 > x.1 then some m else some x

/-- Modelled from the spec: the candidate score of claim C6 —
`(1 − current/target) × 100` whenever the group has a (positive) target,
`−2000` otherwise, plus the constraint soft scores, plus the `+50`
simultaneous-continuity nudge. -/
def specCandidateScore (counts targets : GroupId → Int) (g : SGroup)
    (localScore : Int) (other : Option GroupId) : ℚ :=
  let target := targets g.id
  let quotaTerm : ℚ :=
    if target > 0 then (1 - (counts g.id : ℚ) / (target : ℚ)) * 100 else -2000
  let nudge : ℚ := if other = some g.id && g.can_guard_simultaneously then 50 else 0
  quotaTerm + (localScore : ℚ) + nudge

/-- The number of a group's slots falling in a staffing-rule window. -/
def countSlotsInRule (sch : Sched) (gid : GroupId) (r : RuleDict) : Nat :=
  (sch.slots.filter fun s => s.group_id = some gid && ruleMatches r s).length

/-! Specification devices for the revert-restoration statement (claim
C3): the per-key deltas that the usage-update hooks add. These are not
part of the embedded program; they describe its effects. -/

/-- Per-uid `usage_counters` delta of a staffing-rule list's `on_assign`. -/
def rulesDelta (s : ScheduleSlot) (u : String) : List RuleDict → Int
  | [] => 0
  | r :: rs =>
    (if ruleMatches r s && (r.uid.getD "" = u) then 1 else 0) + rulesDelta s u rs

/-- Per-uid `usage_counters` delta of one constraint's `on_assign`. -/
def cDelta (c : Constraint) (s : ScheduleSlot) (u : String) : Int :=
  match c with
  | .staffingRules _ rules => rulesDelta s u rules
  | _ => 0

/-- Per-uid `usage_counters` delta of a constraint list's `on_assign`
hooks. -/
def csDelta (s : ScheduleSlot) (u : String) : List Constraint → Int
  | [] => 0
  | c :: cs => cDelta c s u + csDelta s u cs

/-- Per-uid `usage_counters` delta of `Group.notify_assignment`. -/
def gDelta (g : SGroup) (s : ScheduleSlot) (u : String) : Int :=
  csDelta s u g.constraints

/-- Per-key `rule_usage` count of `ruleUsageLoop` (per unit delta). -/
def rulesRDelta (gid : GroupId) (ci : Nat) (s : ScheduleSlot)
    (key : GroupId × Nat × Nat) : Nat → List RuleDict → Int
  | _, [] => 0
  | ri, r :: rs =>
    (if ruleMatches r s && ((gid, ci, ri) = key) then 1 else 0) +
      rulesRDelta gid ci s key (ri + 1) rs

/-- Per-key `rule_usage` count of `constraintUsageLoop` (per unit delta). -/
def csRDelta (gid : GroupId) (s : ScheduleSlot) (key : GroupId × Nat × Nat) :
    Nat → List Constraint → Int
  | _, [] => 0
  | ci, c :: cs =>
    (match c with
     | .staffingRules _ rules => rulesRDelta gid ci s key 0 rules
     | _ => 0) + csRDelta gid s key (ci + 1) cs

/-- Per-key `rule_usage` count of `_update_usage_for_slot` (per unit
delta). -/
def rDelta (g : SGroup) (s : ScheduleSlot) (key : GroupId × Nat × Nat) : Int :=
  csRDelta g.id s key 0 g.constraints

/-- The slot identities a move touches. -/
def moveKeys (mv : Move) : List SlotKey := mv.flatMap fun p => [p.1, p.2]

/-- The move shapes the optimizer enumerates: one swap pair, or a block
of two pairs. -/
def moveShapeOk (mv : Move) : Prop :=
  (∃ a b, mv = [(a, b)]) ∨ (∃ a b c d, mv = [(a, c), (b, d)])

/-- The group id the scheduler resolves for an optional slot assignment
(`None`/`DISABLED`/unknown ids resolve to no group). -/
def gidOf (env : Env) (o : Option GroupId) : Option GroupId :=
  (get_group env o).map fun g => g.id

/-- `usage_counters` delta of an optional group's notify hooks at a slot. -/
def optG (env : Env) (o : Option GroupId) (k : SlotKey) (u : String) : Int :=
  match get_group env o with
  | some g => gDelta g (env.infoOf k) u
  | none => 0

/-- `rule_usage` delta of an optional group's `_update_usage_for_slot`
(per unit delta) at a slot. -/
def optR (env : Env) (o : Option GroupId) (k : SlotKey)
    (key : GroupId × Nat × Nat) : Int :=
  match get_group env o with
  | some g => rDelta g (env.infoOf k) key
  | none => 0

/-- Summed own-slot (`straight`) `usage_counters` deltas of a move's
groups, read under the pre-move assignment `a0`. -/
def mvG (env : Env) (a0 : SlotKey → Option GroupId) (u : String) : Move → Int
  | [] => 0
  | p :: ps => optG env (a0 p.1) p.1 u + optG env (a0 p.2) p.2 u + mvG env a0 u ps

/-- Summed destination-slot (`crossed`) `usage_counters` deltas. -/
def mvGx (env : Env) (a0 : SlotKey → Option GroupId) (u : String) : Move → Int
  | [] => 0
  | p :: ps => optG env (a0 p.1) p.2 u + optG env (a0 p.2) p.1 u + mvGx env a0 u ps

/-- Summed own-slot `rule_usage` deltas. -/
def mvR (env : Env) (a0 : SlotKey → Option GroupId)
    (key : GroupId × Nat × Nat) : Move → Int
  | [] => 0
  | p :: ps => optR env (a0 p.1) p.1 key + optR env (a0 p.2) p.2 key + mvR env a0 key ps

/-- Summed destination-slot `rule_usage` deltas. -/
def mvRx (env : Env) (a0 : SlotKey → Option GroupId)
    (key : GroupId × Nat × Nat) : Move → Int
  | [] => 0
  | p :: ps => optR env (a0 p.1) p.2 key + optR env (a0 p.2) p.1 key + mvRx env a0 key ps

/-- A key the removal phase takes out of `gid`'s assigned-slot set. -/
def remHit (env : Env) (a0 : SlotKey → Option GroupId) (mv : Move)
    (gid : GroupId) (x : SlotKey) : Prop :=
  ∃ p ∈ mv, (x = p.1 ∧ gidOf env (a0 p.1) = some gid) ∨
    (x = p.2 ∧ gidOf env (a0 p.2) = some gid)

/-- A key the apply phase inserts into `gid`'s assigned-slot set (each
group is re-registered at its destination slot). -/
def insHit (env : Env) (a0 : SlotKey → Option GroupId) (mv : Move)
    (gid : GroupId) (x : SlotKey) : Prop :=
  ∃ p ∈ mv, (x = p.2 ∧ gidOf env (a0 p.1) = some gid) ∨
    (x = p.1 ∧ gidOf env (a0 p.2) = some gid)

/-- A group id owning one of the slots a move touches. -/
def touchedGid (env : Env) (a0 : SlotKey → Option GroupId) (mv : Move)
    (gid : GroupId) : Prop :=
  ∃ p ∈ mv, gidOf env (a0 p.1) = some gid ∨ gidOf env (a0 p.2) = some gid

/-- Agreement on the four persistent state components (the context
fields are scratch data rewritten before every read). -/
def coreEq (s1 s2 : SchedState) : Prop :=
  s1.assign = s2.assign ∧ s1.usage_counters = s2.usage_counters ∧
  s1.rule_usage = s2.rule_usage ∧ s1.gstates = s2.gstates

/-- One pair of the removal phase of `_try_apply_move` (the `foldl` body
of `tryApplyRemovals`, named for the proofs). -/
def remStep (env : Env) (st : SchedState) (p : SlotKey × SlotKey) : SchedState :=
  let st := match get_group env (st.assign p.1) with
    | some g => update_usage_for_slot (notify_removal g st (env.infoOf p.1)) (env.infoOf p.1) g (-1)
    | none => st
  match get_group env (st.assign p.2) with
    | some g => update_usage_for_slot (notify_removal g st (env.infoOf p.2)) (env.infoOf p.2) g (-1)
    | none => st

/-- The fill-loop invariant of claim C5: any slot that was empty in the
input and that the fill has assigned to `g` on an hour where `g`'s
staffing rules force coupling has its sibling post assigned to `g` as
well. -/
def couplingINV (env : Env) (g : SGroup) (a : SlotKey → Option GroupId) : Prop :=
  ∀ k, initAssign env.sched k = none → a k = some g.id →
    check_coupling_requirement g (env.infoOf k) = true →
    a (otherKey k) = some g.id

/-! ### Concrete scenario: optimizer commits a score-decreasing block swap
(claim C1).

One day; group "G" (allows simultaneous guarding, an activity window at
hour 12) holds both posts of hour 10 (unlocked) and post 1 of hours 0-4
(locked); hour 12 is unlocked and empty; everything else is locked and
empty. -/

def mkSlotC1 (h pos : Nat) : ScheduleSlot :=
  { date := 0, day_of_week := 0, hour := h, position := pos,
    group_id := if h = 10 then some "G" else if h ≤ 4 && pos = 1 then some "G" else none,
    is_locked := !(h = 10 || h = 12) }

def schedC1 : Sched := ⟨0, 0, (List.range 24).flatMap fun h => [mkSlotC1 h 1, mkSlotC1 h 2]⟩

def groupC1 : SGroup := postInit "u1" "u2" "u3"
  { id := "G",
    constraints := [Constraint.activityWindow "aw" [⟨0, 12, 13, none, false, none⟩]],
    can_guard_simultaneously := true }

def envC1 : Env := ⟨[groupC1], schedC1⟩

/-! ### Concrete scenario: block swap exceeds `max_capacity` (claim C4).

One day; group "G" (activity window at hour 10, staffing rule of capacity
1 covering hour 12) holds both posts of hour 10; hours 10 and 12 are
unlocked, everything else locked and empty. -/

def ruleC4 : RuleDict :=
  { day := 0, start_hour := 12, end_hour := 13, max_capacity := some 1,
    force_coupling := false, uid := some "r1" }

def mkSlotC4 (h pos : Nat) : ScheduleSlot :=
  { date := 0, day_of_week := 0, hour := h, position := pos,
    group_id := if h = 10 then some "G" else none,
    is_locked := !(h = 10 || h = 12) }

def schedC4 : Sched := ⟨0, 0, (List.range 24).flatMap fun h => [mkSlotC4 h 1, mkSlotC4 h 2]⟩

def groupC4 : SGroup := postInit "u1" "u2" "u3"
  { id := "G",
    constraints := [Constraint.activityWindow "aw" [⟨0, 10, 11, none, false, none⟩],
      Constraint.staffingRules "sr" [ruleC4]],
    can_guard_simultaneously := true }

def envC4 : Env := ⟨[groupC4], schedC4⟩

/-! ### Concrete scenario: manually edited schedule violating the
Simultaneous hard constraint (claim C2): a non-simultaneous-capable group
"B" hand-placed on both posts of hour 5. -/

def mkSlotC2 (h pos : Nat) : ScheduleSlot :=
  { date := 0, day_of_week := 0, hour := h, position := pos,
    group_id := if h = 5 then some "B" else none, is_locked := false }

def schedC2 : Sched := ⟨0, 0, (List.range 24).flatMap fun h => [mkSlotC2 h 1, mkSlotC2 h 2]⟩

def groupC2 : SGroup := postInit "u1" "u2" "u3"
  { id := "B", staffing_size := some 4, can_guard_simultaneously := false }

def envC2 : Env := ⟨[groupC2], schedC2⟩

def stC2 : SchedState := registerAssigned envC2 (freshState schedC2)

/-! ### Concrete scenario for claim C3: a candidate evaluation on a state
whose group cache is clean (as after the optimizer's baseline
`_calculate_global_score`). -/

def schedC3 : Sched :=
  ⟨0, 0, [⟨0, 0, 10, 1, some "G", false⟩, ⟨0, 0, 10, 2, none, false⟩,
    ⟨0, 0, 12, 1, none, false⟩, ⟨0, 0, 12, 2, none, false⟩]⟩

def groupC3 : SGroup := postInit "u1" "u2" "u3" { id := "G", staffing_size := some 4 }

def envC3 : Env := ⟨[groupC3], schedC3⟩

/-- State after init + baseline global score: "G" has a clean cache. -/
def stC3 : SchedState :=
  (calculate_global_score envC3 (registerAssigned envC3 (freshState schedC3))).2

def mvC3 : Move := [(⟨0, 10, 1⟩, ⟨0, 12, 1⟩)]

/-! Concrete input for the amended revert-restoration statement: the
same one-day schedule, with the pre-move state written out explicitly
(group "G" on slot `(0,10,1)`, all counters zero, clean flags). -/

def schedW : Sched :=
  ⟨0, 0, [⟨0, 0, 10, 1, some "G", false⟩, ⟨0, 0, 10, 2, none, false⟩,
    ⟨0, 0, 12, 1, none, false⟩, ⟨0, 0, 12, 2, none, false⟩]⟩

def groupW : SGroup := postInit "w1" "w2" "w3" { id := "G", staffing_size := some 4 }

def envW : Env := ⟨[groupW], schedW⟩

def stW : SchedState :=
  { assign := fun k => if k = ⟨0, 10, 1⟩ then some "G" else none,
    rule_usage := fun _ => 0,
    usage_counters := fun _ => 0,
    gstates := fun gid => if gid = "G" then ⟨[⟨0, 10, 1⟩], none, false⟩ else ⟨[], none, false⟩,
    ctx_group_id := none,
    ctx_other_group_id := none,
    ctx_is_initial_fill := false }

def mvW : Move := [(⟨0, 10, 1⟩, ⟨0, 12, 1⟩)]

/-! ### Concrete scenario for claim C7: a group with an activity window
and no assigned slots. -/

def schedC7 : Sched :=
  ⟨0, 0, (List.range 24).flatMap fun h =>
    [⟨0, 0, h, 1, none, false⟩, ⟨0, 0, h, 2, none, false⟩]⟩

def groupC7 : SGroup := postInit "u1" "u2" "u3"
  { id := "W", staffing_size := some 4,
    constraints := [Constraint.activityWindow "aw" [⟨0, 0, 1, none, false, none⟩]] }

def envC7 : Env := ⟨[groupC7], schedC7⟩

def stC7 : SchedState := registerAssigned envC7 (freshState schedC7)

/-! ### Concrete data for claims C6, C8, C9 -/

def groupC6 : SGroup := postInit "u1" "u2" "u3" { id := "A", weekly_guard_quota := some 10 }

/-! Witness scenario for claim C5: group "W" with a force-coupling
staffing rule covering hour 10, one empty day, fill processing slot
`(0,10,1)`. -/

def ruleC5 : RuleDict :=
  { day := 0, start_hour := 10, end_hour := 11, max_capacity := none,
    force_coupling := true, uid := some "rw" }

def schedC5 : Sched :=
  ⟨0, 0, (List.range 24).flatMap fun h =>
    [⟨0, 0, h, 1, none, false⟩, ⟨0, 0, h, 2, none, false⟩]⟩

def groupC5 : SGroup := postInit "u1" "u2" "u3"
  { id := "W", weekly_guard_quota := some 10,
    constraints := [Constraint.staffingRules "sr" [ruleC5]],
    can_guard_simultaneously := true }

def bogusDict : ConstraintDict := { type_ := "bogus" }

def gdC8 : GroupDict :=
  { id := "g1", name := "n", staffing_size := some 4, constraintsField := [bogusDict] }

/-! ## Verification statements -/

/-- C1: the claim states that the total score (as computed by the
scheduler's global-score function) after one `improve_schedule` call is
never below the score before it. The concrete run `envC1` refutes this:
the optimizer commits the block swap moving "G" from hour 10 to hour 12 —
its measured score diff is positive only because the candidate rescoring
reads the stale `context.other_group_id` left by the validity checks,
which awards a spurious simultaneous bonus for every one of "G"'s slots —
and the schedule's total score drops from -3950 to -5000. -/
theorem C1_improve_can_decrease_global_score :
    global_score_of [groupC1] schedC1 = -3950 ∧
    global_score_of [groupC1] (schedAfter envC1 (improve_schedule envC1)) = -5000 ∧
    global_score_of [groupC1] (schedAfter envC1 (improve_schedule envC1)) <
      global_score_of [groupC1] schedC1 := by
  refine ⟨by decide, by decide, by decide⟩

/-- C2: the claim states that `validate_schedule` returns a non-empty
message list for a schedule violating a hard constraint after a manual
edit. In `envC2` the non-simultaneous-capable group "B" is hand-placed on
both posts of hour 5 — its own Simultaneous hard constraint rejects that
slot — yet `validate_schedule` is a stub returning the empty list for
every schedule. -/
theorem C2_validate_returns_no_errors :
    (groupC2.is_available envC2 stC2 (envC2.infoOf ⟨0, 5, 1⟩)).1 = false ∧
    validate_schedule envC2 = [] :=
  ⟨by decide, rfl⟩

/-- C3 counterexample: reverting a tentatively applied move does not
restore the group's cached score to its prior value. On `stC3` (cache of
"G" clean at 50 after the baseline global-score computation), applying
and reverting the single swap `mvC3` leaves the cache cleared (`none`)
and dirty instead of `some 50`. -/
theorem C3_counterexample_cache_not_restored :
    (stC3.gstates "G").cached = some 50 ∧
    (try_apply_move envC3 stC3 mvC3).1 = true ∧
    ((revert_move envC3 (try_apply_move envC3 stC3 mvC3).2 mvC3).gstates "G").cached = none ∧
    ((revert_move envC3 (try_apply_move envC3 stC3 mvC3).2 mvC3).gstates "G").dirty = true := by
  refine ⟨by decide, by decide, by decide, by decide⟩

/-- C4: the claim states that a StaffingRule's `max_capacity` bound
survives `improve_schedule`, including block swaps. The concrete run
`envC4` refutes it as a property of the code: `_check_staffing_rules_swap`
checks each pair of a block swap against the same stale usage count, so
the optimizer commits a block swap placing both of "G"'s posts into the
capacity-1 window of `ruleC4`; afterwards both usage ledgers read 2 and
the group holds 2 slots in the window. -/
theorem C4_block_swap_exceeds_capacity :
    ruleC4.max_capacity = some 1 ∧
    (improve_schedule envC4).rule_usage ("G", 1, 0) = 2 ∧
    (improve_schedule envC4).usage_counters "r1" = 2 ∧
    countSlotsInRule (schedAfter envC4 (improve_schedule envC4)) "G" ruleC4 = 2 := by
  refine ⟨by decide, by decide, by decide, by decide⟩

/-- C6 counterexample: the claim's candidate-score formula says the
quota-progress term is `(1 − current/target) × 100` whenever the group
has a target; but `_select_best_group` scores a group whose quota ratio
has reached 1 with a flat −1000. With `current = target = 1` (and no soft
scores or nudge) the code's score is −1000 while the claim's formula
gives 0. -/
theorem C6_counterexample_quota_term :
    candidateScore (fun _ => 1) (fun _ => 1) groupC6 0 none = -1000 ∧
    specCandidateScore (fun _ => 1) (fun _ => 1) groupC6 0 none = 0 := by
  constructor
  · unfold candidateScore
    norm_num
    decide
  · unfold specCandidateScore
    norm_num
    decide

set_option maxRecDepth 40000

/-- C7 counterexample: group "W" has an ActivityWindow covering hour 0 of
an otherwise empty schedule and holds no slot. In the unused
`ScheduleState.get_group_consecutive_score` the window hour counts as an
active point (scoring 50), but the Consecutive/Rest scoring that the
optimizer's total is actually built from (`_calculate_global_score` via
`Group.get_score`) sees no active point at all: the total is 0. -/
theorem C7_counterexample_window_not_counted :
    get_group_consecutive_score envC7 stC7 "W" = 50 ∧
    (calculate_global_score envC7 stC7).1 = 0 := by
  refine ⟨by decide, by decide⟩

/-- C8 counterexample: the factory raises on the unknown type tag, but
`Group.from_dict` catches the `ValueError` and silently skips the
dictionary: deserializing `gdC8` (whose constraints list holds only a
`"bogus"`-typed dict) succeeds and returns a group carrying just the
three auto-injected default constraints — no error reaches the caller. -/
theorem C8_counterexample_unknown_type_skipped :
    create_from_dict "c" (fun _ => "r") bogusDict = .error "Unknown constraint type: bogus" ∧
    (group_from_dict (fun _ => "c") (fun _ _ => "r") "u1" "u2" "u3" "col" gdC8).constraints =
      [.simultaneous "u1" true, .consecutive "u2", .rest "u3"] := by
  refine ⟨rfl, by decide⟩

/-- C9 counterexample: `SimultaneousConstraint.to_dict` omits the
constraint's `uid`, so `from_dict(to_dict(x))` cannot reproduce it: the
reconstructed constraint carries the constructor's fresh uid instead of
the original. -/
theorem C9_counterexample_sim_uid_lost :
    (Constraint.simultaneous "orig-uid" true).to_dict.uid = none ∧
    create_from_dict "fresh9" (fun _ => "x") (Constraint.simultaneous "orig-uid" true).to_dict =
      .ok (.simultaneous "fresh9" true) ∧
    Constraint.uidOf (.simultaneous "fresh9" true) ≠
      Constraint.uidOf (.simultaneous "orig-uid" true) := by
  refine ⟨by decide, rfl, by decide⟩

/-- C10: two `ScheduleSlot` values compare equal (`__eq__`) and hash
equal (`__hash__` input) exactly when they agree on the triple
`(date, hour, position)`; `group_id`, `day_of_week` and `is_locked` are
ignored, so assigning or locking a slot never changes its identity in a
slot-keyed set or map. -/
theorem C10_slot_identity_eq_hash :
    ∀ a b : ScheduleSlot,
      (a.pyEq b = true ↔ (a.date, a.hour, a.position) = (b.date, b.hour, b.position)) ∧
      (a.hashInput = b.hashInput ↔ (a.date, a.hour, a.position) = (b.date, b.hour, b.position)) ∧
      ∀ gid dow lock,
        ScheduleSlot.pyEq { a with group_id := gid, day_of_week := dow, is_locked := lock } a = true ∧
        ScheduleSlot.hashInput { a with group_id := gid, day_of_week := dow, is_locked := lock } =
          a.hashInput := by
  intro a b
  refine ⟨?_, ?_, ?_⟩
  · simp [ScheduleSlot.pyEq]
  · simp [ScheduleSlot.hashInput]
  · intro gid dow lock
    exact ⟨by simp [ScheduleSlot.pyEq], by simp [ScheduleSlot.hashInput]⟩

/-! ### Helper lemmas -/

theorem mem_insPair (x y : Nat × Nat) (l : List (Nat × Nat)) :
    y ∈ insPair x l ↔ y = x ∨ y ∈ l := by
  induction l with
  | nil => simp [insPair]
  | cons z zs ih =>
    by_cases hxz : x = z
    · subst hxz
      simp only [insPair, if_pos rfl]
      constructor
      · intro h; right; exact h
      · rintro (h | h)
        · subst h; exact List.mem_cons_self _ _
        · exact h
    · by_cases hle : pairLe x z = true
      · simp [insPair, hxz, hle, List.mem_cons]
      · simp [insPair, hxz, hle, List.mem_cons, ih]
        tauto

theorem mem_sortedDedup (y : Nat × Nat) (l : List (Nat × Nat)) :
    y ∈ sortedDedup l ↔ y ∈ l := by
  induction l with
  | nil => simp [sortedDedup]
  | cons a as ih =>
    show y ∈ insPair a (sortedDedup as) ↔ _
    rw [mem_insPair]
    simp [ih, List.mem_cons]

theorem head_sortCandsDesc (l : List (ℚ × SGroup)) :
    (sortCandsDesc l).head? = firstMaxCand l := by
  induction l with
  | nil => rfl
  | cons x xs ih =>
    show (insertCandDesc x (sortCandsDesc xs)).head? = _
    cases hs : sortCandsDesc xs with
    | nil =>
      rw [hs] at ih
      simp only [insertCandDesc, firstMaxCand, ← ih]
      rfl
    | cons y ys =>
      rw [hs] at ih
      simp only [firstMaxCand, ← ih]
      by_cases hge : x.1 ≥ y.1
      · have hngt : ¬ y.1 > x.1 := not_lt_of_ge hge
        simp [insertCandDesc, hge, hngt]
      · have hgt : y.1 > x.1 := lt_of_not_ge hge
        simp [insertCandDesc, hge, hgt]

/-- C6 amended: the candidate score of `_select_best_group` is the
quota-progress term — `(1 − current/target) × 100` while the quota ratio
is below 1, a flat `−1000` once it reaches 1, and `−2000` when there is
no positive target — plus the sum of the constraints' soft scores, plus
50 when the sibling post already holds the same group and the group
allows simultaneous guarding; the group selected is the first feasible
candidate attaining the maximal score (Python's stable descending sort
breaks ties by encounter order). -/
theorem C6_amended_selection :
    (∀ (counts targets : GroupId → Int) (g : SGroup) (localScore : Int)
      (other : Option GroupId),
      candidateScore counts targets g localScore other =
        (if targets g.id > 0 then
          (if ((counts g.id : ℚ) / (targets g.id : ℚ)) ≥ 1 then -1000
           else (1 - (counts g.id : ℚ) / (targets g.id : ℚ)) * 100)
         else -2000) + (localScore : ℚ) +
        (if other = some g.id && g.can_guard_simultaneously then 50 else 0)) ∧
    (∀ (env : Env) (st : SchedState) (groups : List SGroup)
      (counts targets : GroupId → Int) (s : ScheduleSlot),
      (select_best_group env st groups counts targets s).1 =
        (firstMaxCand ((groups.foldl (selectStep env counts targets s) ⟨st, []⟩).cands)).map
          Prod.snd) := by
  constructor
  · intro counts targets g localScore other
    rfl
  · intro env st groups counts targets s
    show (match sortCandsDesc ((groups.foldl (selectStep env counts targets s) ⟨st, []⟩).cands)
      with
      | [] => ((none : Option SGroup),
          (groups.foldl (selectStep env counts targets s) ⟨st, []⟩).st)
      | c :: _ => (some c.2, (groups.foldl (selectStep env counts targets s) ⟨st, []⟩).st)).1 = _
    rw [← head_sortCandsDesc]
    cases sortCandsDesc ((groups.foldl (selectStep env counts targets s) ⟨st, []⟩).cands) with
    | nil => rfl
    | cons c cs => rfl

/-- C7 amended: in the Consecutive/Rest scoring that the optimizer's
total score is actually built from (`Group.get_score` over the group's
assigned slots), an hour point counts as active if and only if the group
holds a post at that hour — i.e. some position of that `(date, hour)` is
in its assigned-slot set. ActivityWindow hours count as active only in
`ScheduleState.get_group_consecutive_score`, which no optimizer path
calls (see the counterexample). -/
theorem C7_amended_active_points :
    ∀ (assigned : List SlotKey) (d h : Nat),
      (d, h) ∈ activeHoursOf assigned ↔ ∃ pos, (⟨d, h, pos⟩ : SlotKey) ∈ assigned := by
  intro assigned d h
  unfold activeHoursOf
  rw [mem_sortedDedup]
  simp only [List.mem_map]
  constructor
  · rintro ⟨k, hk, he⟩
    refine ⟨k.position, ?_⟩
    cases k
    simp only [Prod.mk.injEq] at he
    simp only [he.1, he.2] at hk ⊢
    exact hk
  · rintro ⟨pos, hp⟩
    exact ⟨⟨d, h, pos⟩, hp, rfl⟩

/-- C8 amended: an unregistered constraint type tag makes
`ConstraintFactory.create_from_dict` raise `ValueError` — fatal for that
direct factory call — but `Group.from_dict` wraps each factory call in
`try/except ValueError: pass`, so inside a group's constraints list the
offending dictionary is silently skipped and deserialization of the
group continues without error. -/
theorem C8_amended_factory_raises_group_skips :
    (∀ (fresh : String) (freshRule : Nat → String) (d : ConstraintDict),
      d.type_ ∉ registeredTypeTags →
      create_from_dict fresh freshRule d = .error ("Unknown constraint type: " ++ d.type_)) ∧
    (∀ (freshC : Nat → String) (freshR : Nat → Nat → String) (i : Nat)
      (cd : ConstraintDict) (cds : List ConstraintDict),
      cd.type_ ∉ registeredTypeTags →
      parseConstraintDicts freshC freshR i (cd :: cds) =
        parseConstraintDicts freshC freshR (i + 1) cds) := by
  have hfac : ∀ (fresh : String) (freshRule : Nat → String) (d : ConstraintDict),
      d.type_ ∉ registeredTypeTags →
      create_from_dict fresh freshRule d = .error ("Unknown constraint type: " ++ d.type_) := by
    intro fresh fr d hd
    simp only [registeredTypeTags, List.mem_cons, List.not_mem_nil, or_false, not_or] at hd
    obtain ⟨h1, h2, h3, h4, h5, h6, h7⟩ := hd
    simp [create_from_dict, h1, h2, h3, h4, h5, h6, h7]
  refine ⟨hfac, ?_⟩
  intro freshC freshR i cd cds hcd
  unfold parseConstraintDicts
  rw [hfac (freshC i) (freshR i) cd hcd]
  cases cds with
  | nil => rfl
  | cons a as => rfl

theorem C8_amended_witness :
    create_from_dict "w" (fun _ => "wr") bogusDict =
      .error ("Unknown constraint type: " ++ bogusDict.type_) :=
  C8_amended_factory_raises_group_skips.1 "w" (fun _ => "wr") bogusDict (by decide)

theorem fillRuleUidsFrom_id (fr : Nat → String) :
    ∀ (i : Nat) (rules : List RuleDict), (rules.all fun r => r.uid.isSome) = true →
    fillRuleUidsFrom fr i rules = rules := by
  intro i rules
  induction rules generalizing i with
  | nil => intro _; rfl
  | cons r rs ih =>
    intro h
    simp only [List.all_cons, Bool.and_eq_true] at h
    unfold fillRuleUidsFrom
    rw [if_neg, ih _ h.2]
    intro he
    rw [he] at h
    simp at h

theorem roundTrip_constraint (fresh : String) (fr : Nat → String) (c : Constraint)
    (h : staffingUidsPresent c = true) :
    create_from_dict fresh fr c.to_dict = .ok (regenUid fresh c) := by
  cases c with
  | unavailability u rules => rfl
  | activityWindow u ws => rfl
  | dateSpecific u dcs => rfl
  | staffingRules u rules =>
    simp only [staffingUidsPresent] at h
    simp [create_from_dict, Constraint.to_dict, regenUid, fillRuleUids,
      fillRuleUidsFrom_id fr 0 rules h]
  | simultaneous u a => rfl
  | consecutive u => rfl
  | rest u => rfl

theorem parse_toDict (freshC : Nat → String) (freshR : Nat → Nat → String) :
    ∀ (i : Nat) (cs : List Constraint), (cs.all staffingUidsPresent) = true →
    parseConstraintDicts freshC freshR i (cs.map Constraint.to_dict) =
      regenUidsFrom freshC i cs := by
  intro i cs
  induction cs generalizing i with
  | nil => intro _; rfl
  | cons c cs ih =>
    intro h
    simp only [List.all_cons, Bool.and_eq_true] at h
    show parseConstraintDicts freshC freshR i (c.to_dict :: cs.map Constraint.to_dict) = _
    unfold parseConstraintDicts
    rw [roundTrip_constraint (freshC i) (freshR i) c h.1]
    show regenUid (freshC i) c :: parseConstraintDicts freshC freshR (i + 1) _ = _
    rw [ih _ h.2]
    rfl

theorem hasSim_regen (f : Nat → String) :
    ∀ (i : Nat) (cs : List Constraint),
      hasSimultaneous (regenUidsFrom f i cs) = hasSimultaneous cs := by
  intro i cs
  induction cs generalizing i with
  | nil => rfl
  | cons c cs ih =>
    show hasSimultaneous (regenUid (f i) c :: regenUidsFrom f (i + 1) cs) = _
    simp only [hasSimultaneous, List.any_cons] at *
    rw [ih (i + 1)]
    cases c <;> rfl

theorem hasConsec_regen (f : Nat → String) :
    ∀ (i : Nat) (cs : List Constraint),
      hasConsecutive (regenUidsFrom f i cs) = hasConsecutive cs := by
  intro i cs
  induction cs generalizing i with
  | nil => rfl
  | cons c cs ih =>
    show hasConsecutive (regenUid (f i) c :: regenUidsFrom f (i + 1) cs) = _
    simp only [hasConsecutive, List.any_cons] at *
    rw [ih (i + 1)]
    cases c <;> rfl

theorem hasRest_regen (f : Nat → String) :
    ∀ (i : Nat) (cs : List Constraint),
      hasRest (regenUidsFrom f i cs) = hasRest cs := by
  intro i cs
  induction cs generalizing i with
  | nil => rfl
  | cons c cs ih =>
    show hasRest (regenUid (f i) c :: regenUidsFrom f (i + 1) cs) = _
    simp only [hasRest, List.any_cons] at *
    rw [ih (i + 1)]
    cases c <;> rfl

theorem firstSimAllowed_regen (f : Nat → String) :
    ∀ (i : Nat) (cs : List Constraint),
      firstSimAllowed (regenUidsFrom f i cs) = firstSimAllowed cs := by
  intro i cs
  induction cs generalizing i with
  | nil => rfl
  | cons c cs ih =>
    show firstSimAllowed (regenUid (f i) c :: regenUidsFrom f (i + 1) cs) = _
    cases c with
    | simultaneous u a => rfl
    | unavailability u r => exact ih (i + 1)
    | activityWindow u w => exact ih (i + 1)
    | dateSpecific u d => exact ih (i + 1)
    | staffingRules u r => exact ih (i + 1)
    | consecutive u => exact ih (i + 1)
    | rest u => exact ih (i + 1)

theorem syncFirst_eq_self (can : Bool) :
    ∀ (cs : List Constraint), firstSimAllowed cs = some can →
      syncFirstSimultaneous can cs = cs := by
  intro cs
  induction cs with
  | nil => intro _; rfl
  | cons c cs ih =>
    intro h
    cases c with
    | simultaneous u a =>
      simp only [firstSimAllowed, Option.some.injEq] at h
      simp [syncFirstSimultaneous, h]
    | unavailability u r => simp [syncFirstSimultaneous, ih h]
    | activityWindow u w => simp [syncFirstSimultaneous, ih h]
    | dateSpecific u d => simp [syncFirstSimultaneous, ih h]
    | staffingRules u r => simp [syncFirstSimultaneous, ih h]
    | consecutive u => simp [syncFirstSimultaneous, ih h]
    | rest u => simp [syncFirstSimultaneous, ih h]

/-- C9 amended: a serialize / deserialize round trip reproduces every
observable field of a Constraint and a Group, except that the uids of
Simultaneous, Consecutive and Rest constraints are regenerated (their
`to_dict` omits `uid`, see the counterexample); rule-carrying constraints
keep their uids (including per-rule uids), and a group's Simultaneous
`allowed` flag comes back equal to `can_guard_simultaneously` (the
`__post_init__` sync), which already holds for any constructor-built
group. -/
theorem C9_amended_round_trip :
    (∀ (fresh : String) (fr : Nat → String) (c : Constraint),
      staffingUidsPresent c = true →
      create_from_dict fresh fr c.to_dict = .ok (regenUid fresh c)) ∧
    (∀ (freshC : Nat → String) (freshR : Nat → Nat → String) (u1 u2 u3 col : String)
      (g : SGroup),
      (g.constraints.all staffingUidsPresent) = true →
      hasSimultaneous g.constraints = true →
      hasConsecutive g.constraints = true →
      hasRest g.constraints = true →
      firstSimAllowed g.constraints = some g.can_guard_simultaneously →
      group_from_dict freshC freshR u1 u2 u3 col g.to_dict =
        { g with constraints := regenUidsFrom freshC 0 g.constraints }) := by
  refine ⟨fun fresh fr c h => roundTrip_constraint fresh fr c h, ?_⟩
  intro freshC freshR u1 u2 u3 col g hall hsim hcons hrest hfirst
  unfold group_from_dict SGroup.to_dict
  simp only
  rw [parse_toDict freshC freshR 0 g.constraints hall]
  unfold postInit postInitConstraints
  simp only
  rw [hasSim_regen freshC 0 g.constraints, hsim, if_pos rfl]
  have hcan : (some g.can_guard_simultaneously).getD true = g.can_guard_simultaneously := rfl
  rw [hcan]
  rw [syncFirst_eq_self g.can_guard_simultaneously (regenUidsFrom freshC 0 g.constraints)
    (by rw [firstSimAllowed_regen freshC 0 g.constraints]; exact hfirst)]
  rw [hasConsec_regen freshC 0 g.constraints, hcons, if_pos rfl]
  rw [hasRest_regen freshC 0 g.constraints, hrest, if_pos rfl]
  cases g
  simp

theorem C9_amended_witness :
    group_from_dict (fun _ => "c") (fun _ _ => "r") "w1" "w2" "w3" "col" groupC4.to_dict =
      { groupC4 with constraints := regenUidsFrom (fun _ => "c") 0 groupC4.constraints } :=
  C9_amended_round_trip.2 (fun _ => "c") (fun _ _ => "r") "w1" "w2" "w3" "col" groupC4
    (by decide) (by decide) (by decide) (by decide) (by decide)

/-! ### Slot assignments are untouched by notification / usage updates -/

theorem foldl_assign_eq {α : Type} (f : SchedState → α → SchedState)
    (hf : ∀ st a, (f st a).assign = st.assign) :
    ∀ (l : List α) (st : SchedState), (l.foldl f st).assign = st.assign := by
  intro l
  induction l with
  | nil => intro st; rfl
  | cons a as ih => intro st; rw [List.foldl_cons, ih, hf]

theorem updateUsage_assign (st : SchedState) (uid : String) (delta : Int) :
    (updateUsage st uid delta).assign = st.assign := rfl

theorem on_assign_assign (c : Constraint) (st : SchedState) (s : ScheduleSlot) :
    (c.on_assign st s).assign = st.assign := by
  cases c with
  | staffingRules u rules =>
    exact foldl_assign_eq _ (fun st r => by unfold updateUsage; split <;> rfl) rules st
  | unavailability u r => rfl
  | activityWindow u w => rfl
  | dateSpecific u d => rfl
  | simultaneous u a => rfl
  | consecutive u => rfl
  | rest u => rfl

theorem on_remove_assign (c : Constraint) (st : SchedState) (s : ScheduleSlot) :
    (c.on_remove st s).assign = st.assign := by
  cases c with
  | staffingRules u rules =>
    exact foldl_assign_eq _ (fun st r => by unfold updateUsage; split <;> rfl) rules st
  | unavailability u r => rfl
  | activityWindow u w => rfl
  | dateSpecific u d => rfl
  | simultaneous u a => rfl
  | consecutive u => rfl
  | rest u => rfl

theorem notify_assignment_assign (g : SGroup) (st : SchedState) (s : ScheduleSlot) :
    (notify_assignment g st s).assign = st.assign := by
  unfold notify_assignment
  exact foldl_assign_eq _ (fun st c => on_assign_assign c st s) g.constraints _

theorem notify_removal_assign (g : SGroup) (st : SchedState) (s : ScheduleSlot) :
    (notify_removal g st s).assign = st.assign := by
  unfold notify_removal
  rw [foldl_assign_eq _ (fun st c => on_remove_assign c st s) g.constraints]
  split <;> rfl

theorem ruleUsageLoop_assign (s : ScheduleSlot) (gid : GroupId) (ci : Nat)
    (delta : Int) :
    ∀ (rules : List RuleDict) (ri : Nat) (st : SchedState),
      (ruleUsageLoop s gid ci delta rules ri st).assign = st.assign := by
  intro rules
  induction rules with
  | nil => intro ri st; rfl
  | cons r rs ih =>
    intro ri st
    show (ruleUsageLoop s gid ci delta rs (ri + 1) _).assign = _
    rw [ih]
    split <;> rfl

theorem constraintUsageLoop_assign (s : ScheduleSlot) (gid : GroupId) (delta : Int) :
    ∀ (cs : List Constraint) (ci : Nat) (st : SchedState),
      (constraintUsageLoop s gid delta cs ci st).assign = st.assign := by
  intro cs
  induction cs with
  | nil => intro ci st; rfl
  | cons c chs ih =>
    intro ci st
    show (constraintUsageLoop s gid delta chs (ci + 1) _).assign = _
    rw [ih]
    cases c with
    | staffingRules u rules => exact ruleUsageLoop_assign s gid ci delta rules 0 st
    | unavailability u r => rfl
    | activityWindow u w => rfl
    | dateSpecific u d => rfl
    | simultaneous u a => rfl
    | consecutive u => rfl
    | rest u => rfl

theorem update_usage_for_slot_assign (st : SchedState) (s : ScheduleSlot)
    (g : SGroup) (delta : Int) :
    (update_usage_for_slot st s g delta).assign = st.assign :=
  constraintUsageLoop_assign s g.id delta g.constraints 0 st

theorem registerAssigned_assign (env : Env) (st : SchedState) :
    (registerAssigned env st).assign = st.assign := by
  unfold registerAssigned
  refine foldl_assign_eq _ (fun st s => ?_) env.sched.slots st
  cases s.group_id with
  | none => rfl
  | some gid =>
    simp only
    split
    · rfl
    · cases get_group env (some gid) with
      | none => rfl
      | some g =>
        simp only
        rw [update_usage_for_slot_assign, notify_assignment_assign]

theorem is_available_assign (g : SGroup) (env : Env) (st : SchedState)
    (s : ScheduleSlot) : (g.is_available env st s).2.assign = st.assign := rfl

theorem calculate_score_assign (g : SGroup) (env : Env) (st : SchedState)
    (s : ScheduleSlot) : (g.calculate_score env st s).2.assign = st.assign := rfl

theorem selectStep_assign (env : Env) (counts targets : GroupId → Int)
    (s : ScheduleSlot) (acc : CandAcc) (g : SGroup) :
    (selectStep env counts targets s acc g).st.assign = acc.st.assign := by
  unfold selectStep
  dsimp only
  split
  · rfl
  · split
    · rfl
    · split
      · rfl
      · rfl

theorem select_best_group_assign (env : Env) (st : SchedState) (groups : List SGroup)
    (counts targets : GroupId → Int) (s : ScheduleSlot) :
    (select_best_group env st groups counts targets s).2.assign = st.assign := by
  unfold select_best_group
  have h : ∀ (l : List SGroup) (acc : CandAcc),
      (l.foldl (selectStep env counts targets s) acc).st.assign = acc.st.assign := by
    intro l
    induction l with
    | nil => intro acc; rfl
    | cons a as ih =>
      intro acc
      rw [List.foldl_cons, ih, selectStep_assign]
  dsimp only
  split <;> simpa using h groups ⟨st, []⟩

theorem assign_slot_assign (env : Env) (st : SchedState) (s : ScheduleSlot)
    (g : SGroup) :
    (assign_slot env st s g).assign = Function.update st.assign s.key (some g.id) := by
  unfold assign_slot
  rw [update_usage_for_slot_assign, notify_assignment_assign]

/-! ### Structural facts about slots, keys and candidate selection -/

theorem infoOf_key (env : Env) (k : SlotKey) : (env.infoOf k).key = k := by
  unfold Env.infoOf
  cases hf : env.sched.slots.find? (fun s => s.key = k) with
  | none => cases k; rfl
  | some s =>
    have hp := List.find?_some hf
    simp only [decide_eq_true_eq] at hp
    simpa using hp

theorem keys_position (env : Env)
    (hpos : ∀ s ∈ env.sched.slots, s.position = 1 ∨ s.position = 2)
    (k : SlotKey) (hk : k ∈ env.keys) : k.position = 1 ∨ k.position = 2 := by
  unfold Env.keys at hk
  simp only [List.mem_map] at hk
  obtain ⟨s, hs, he⟩ := hk
  rw [← he]
  exact hpos s hs

theorem otherKey_invol (k : SlotKey) (h : k.position = 1 ∨ k.position = 2) :
    otherKey (otherKey k) = k := by
  cases k with
  | mk d hh p =>
    simp only at h
    rcases h with h | h <;> subst h <;> rfl

theorem otherKey_ne (k : SlotKey) : otherKey k ≠ k := by
  intro he
  have hpe : (if k.position = 1 then 2 else 1) = k.position :=
    congrArg SlotKey.position he
  by_cases h1 : k.position = 1
  · rw [if_pos h1, h1] at hpe
    exact absurd hpe (by decide)
  · rw [if_neg h1] at hpe
    exact h1 hpe.symm

theorem mem_insertCandDesc (x y : ℚ × SGroup) (l : List (ℚ × SGroup)) :
    y ∈ insertCandDesc x l → y = x ∨ y ∈ l := by
  induction l with
  | nil =>
    intro h
    simp only [insertCandDesc, List.mem_singleton] at h
    exact Or.inl h
  | cons z zs ih =>
    unfold insertCandDesc
    split
    · intro h
      rcases List.mem_cons.mp h with h | h
      · exact Or.inl h
      · exact Or.inr h
    · intro h
      rcases List.mem_cons.mp h with h | h
      · exact Or.inr (h ▸ List.mem_cons_self z zs)
      · rcases ih h with h | h
        · exact Or.inl h
        · exact Or.inr (List.mem_cons_of_mem z h)

theorem mem_sortCandsDesc (y : ℚ × SGroup) (l : List (ℚ × SGroup)) :
    y ∈ sortCandsDesc l → y ∈ l := by
  induction l with
  | nil => intro h; simpa [sortCandsDesc] using h
  | cons x xs ih =>
    intro h
    rcases mem_insertCandDesc x y (sortCandsDesc xs) h with h | h
    · exact h ▸ List.mem_cons_self x xs
    · exact List.mem_cons_of_mem x (ih h)

theorem selectStep_cands (env : Env) (counts targets : GroupId → Int)
    (s : ScheduleSlot) (acc : CandAcc) (g : SGroup) :
    ∀ x ∈ (selectStep env counts targets s acc g).cands, x ∈ acc.cands ∨ x.2 = g := by
  intro x
  unfold selectStep
  dsimp only
  split
  · exact fun h => Or.inl h
  · split
    · exact fun h => Or.inl h
    · split
      · exact fun h => Or.inl h
      · intro h
        rcases List.mem_append.mp h with h | h
        · exact Or.inl h
        · simp only [List.mem_singleton] at h
          exact Or.inr (by rw [h])

theorem select_fold_cands (env : Env) (counts targets : GroupId → Int)
    (s : ScheduleSlot) :
    ∀ (l : List SGroup) (acc : CandAcc) (x : ℚ × SGroup),
      x ∈ (l.foldl (selectStep env counts targets s) acc).cands →
      x ∈ acc.cands ∨ x.2 ∈ l := by
  intro l
  induction l with
  | nil => intro acc x h; exact Or.inl h
  | cons a as ih =>
    intro acc x h
    rw [List.foldl_cons] at h
    rcases ih _ x h with h | h
    · rcases selectStep_cands env counts targets s acc a x h with h | h
      · exact Or.inl h
      · exact Or.inr (h ▸ List.mem_cons_self a as)
    · exact Or.inr (List.mem_cons_of_mem a h)

theorem select_best_group_mem (env : Env) (st : SchedState) (groups : List SGroup)
    (counts targets : GroupId → Int) (s : ScheduleSlot) (g : SGroup)
    (h : (select_best_group env st groups counts targets s).1 = some g) :
    g ∈ groups := by
  unfold select_best_group at h
  dsimp only at h
  revert h
  cases hs : sortCandsDesc ((groups.foldl (selectStep env counts targets s) ⟨st, []⟩).cands) with
  | nil => intro h; cases h
  | cons c cs =>
    intro h
    have hcg : c.2 = g := by simpa using h
    have hc : c ∈ (groups.foldl (selectStep env counts targets s) ⟨st, []⟩).cands :=
      mem_sortCandsDesc c _ (hs ▸ List.mem_cons_self c cs)
    rcases select_fold_cands env counts targets s groups ⟨st, []⟩ c hc with h' | h'
    · cases h'
    · exact hcg ▸ h'

theorem eq_of_mem_map_nodup {α β : Type} (f : α → β) :
    ∀ (l : List α), (l.map f).Nodup → ∀ {a b : α}, a ∈ l → b ∈ l → f a = f b → a = b := by
  intro l
  induction l with
  | nil => intro _ a b ha; cases ha
  | cons x xs ih =>
    intro hn a b ha hb hf
    rw [List.map_cons, List.nodup_cons] at hn
    rcases List.mem_cons.mp ha with ha | ha <;> rcases List.mem_cons.mp hb with hb | hb
    · rw [ha, hb]
    · refine absurd ?_ hn.1
      rw [← ha, hf]
      exact List.mem_map_of_mem f hb
    · refine absurd ?_ hn.1
      rw [← hb, ← hf]
      exact List.mem_map_of_mem f ha
    · exact ih hn.2 ha hb hf

/-! ### The fill loop preserves the coupling invariant (claim C5) -/

theorem fillStep_preserves_inv (env : Env) (avail : List SGroup)
    (targets : GroupId → Int) (g : SGroup)
    (hpos : ∀ s ∈ env.sched.slots, s.position = 1 ∨ s.position = 2)
    (hids : (env.groups.map SGroup.id).Nodup)
    (hsub : ∀ x ∈ avail, x ∈ env.groups)
    (hg : g ∈ env.groups)
    (k : SlotKey) (hk : k ∈ env.keys)
    (acc : FillAcc) (hinv : couplingINV env g acc.st.assign) :
    couplingINV env g (fillStep env avail targets acc k).st.assign := by
  have hkpos := keys_position env hpos k hk
  unfold fillStep
  dsimp only
  split
  · exact hinv
  split
  · exact hinv
  next hkempty =>
  have hempty : acc.st.assign k = none := by
    rcases ho : acc.st.assign k with _ | v
    · rfl
    · exact absurd (by rw [ho]; rfl) hkempty
  split
  next hsel =>
    rw [select_best_group_assign]
    exact hinv
  next g' hsel =>
  have hg'mem : g' ∈ env.groups := hsub g' (select_best_group_mem _ _ _ _ _ _ _ hsel)
  have hg'g : g'.id = g.id → g' = g := fun hii =>
    eq_of_mem_map_nodup SGroup.id env.groups hids hg'mem hg hii
  split
  next hcoup =>
    split
    · rw [select_best_group_assign]
      exact hinv
    next hcan =>
      split
      next ok hok =>
        split
        next hoknone =>
          rw [select_best_group_assign] at hoknone
          have hokk : ok = otherKey k ∧ otherKey k ∈ env.keys := by
            unfold get_other_slot at hok
            by_cases hmem : otherKey k ∈ env.keys
            · rw [if_pos hmem] at hok
              injection hok with hok
              exact ⟨hok.symm, hmem⟩
            · rw [if_neg hmem] at hok
              cases hok
          obtain ⟨hok1, hok2⟩ := hokk
          have hne : ok ≠ k := hok1 ▸ otherKey_ne k
          show couplingINV env g
            (assign_slot env (assign_slot env _ (env.infoOf k) g') (env.infoOf ok) g').assign
          rw [assign_slot_assign, assign_slot_assign, infoOf_key, infoOf_key,
            select_best_group_assign]
          intro k' h0 h1 h2
          by_cases hck : k' = k
          · subst hck
            rw [Function.update_noteq hne.symm, Function.update_same] at h1
            injection h1 with h1
            have hgg := hg'g h1
            subst hgg
            rw [← hok1, Function.update_same, h1]
          · by_cases hco : k' = ok
            · subst hco
              rw [Function.update_same] at h1
              injection h1 with h1
              have hgg := hg'g h1
              subst hgg
              have hoo : otherKey k' = k := hok1 ▸ otherKey_invol k hkpos
              rw [hoo, Function.update_noteq hne.symm, Function.update_same, h1]
            · rw [Function.update_noteq hco, Function.update_noteq hck] at h1
              have hprev := hinv k' h0 h1 h2
              have hco2 : otherKey k' ≠ ok := by
                intro he
                rw [he] at hprev
                rw [hoknone] at hprev
                cases hprev
              have hck2 : otherKey k' ≠ k := by
                intro he
                rw [he] at hprev
                rw [hempty] at hprev
                cases hprev
              rw [Function.update_noteq hco2, Function.update_noteq hck2]
              exact hprev
        · rw [select_best_group_assign]
          exact hinv
      · rw [select_best_group_assign]
        exact hinv
  next hncoup =>
    show couplingINV env g (assign_slot env _ (env.infoOf k) g').assign
    rw [assign_slot_assign, infoOf_key, select_best_group_assign]
    intro k' h0 h1 h2
    by_cases hck : k' = k
    · subst hck
      rw [Function.update_same] at h1
      injection h1 with h1
      have hgg := hg'g h1
      subst hgg
      exact absurd h2 hncoup
    · rw [Function.update_noteq hck] at h1
      have hprev := hinv k' h0 h1 h2
      have hck2 : otherKey k' ≠ k := by
        intro he
        rw [he] at hprev
        rw [hempty] at hprev
        cases hprev
      rw [Function.update_noteq hck2]
      exact hprev

theorem fill_fold_inv (env : Env) (avail : List SGroup) (targets : GroupId → Int)
    (g : SGroup)
    (hpos : ∀ s ∈ env.sched.slots, s.position = 1 ∨ s.position = 2)
    (hids : (env.groups.map SGroup.id).Nodup)
    (hsub : ∀ x ∈ avail, x ∈ env.groups)
    (hg : g ∈ env.groups) :
    ∀ (ord : List SlotKey) (acc : FillAcc), (∀ k ∈ ord, k ∈ env.keys) →
      couplingINV env g acc.st.assign →
      couplingINV env g ((ord.foldl (fillStep env avail targets) acc).st.assign) := by
  intro ord
  induction ord with
  | nil => intro acc _ hinv; exact hinv
  | cons a as ih =>
    intro acc hord hinv
    rw [List.foldl_cons]
    exact ih _ (fun k hk => hord k (List.mem_cons_of_mem a hk))
      (fillStep_preserves_inv env avail targets g hpos hids hsub hg a
        (hord a (List.mem_cons_self a as)) acc hinv)

/-- C5: if the initial fill assigns a simultaneous-capable group `g` to a
previously-empty post of an hour covered by one of `g`'s force-coupling
staffing rules, then the sibling post ends the fill holding `g` or no
group (the fill's coupled branch always assigns both posts atomically and
never overwrites an assigned slot). -/
theorem C5_coupling_invariant (groups : List SGroup) (sch : Sched)
    (order : List SlotKey)
    (hpos : ∀ s ∈ sch.slots, s.position = 1 ∨ s.position = 2)
    (horder : ∀ k ∈ order, k ∈ (Env.mk groups sch).keys)
    (hids : (groups.map SGroup.id).Nodup)
    (g : SGroup) (hg : g ∈ availableGroupsOf groups)
    (hsim : g.can_guard_simultaneously = true)
    (k : SlotKey)
    (hcov : check_coupling_requirement g ((Env.mk groups sch).infoOf k) = true)
    (hempty : initAssign sch k = none)
    (hassigned : (fill_schedule groups sch order).assign k = some g.id) :
    (fill_schedule groups sch order).assign (otherKey k) = some g.id ∨
      (fill_schedule groups sch order).assign (otherKey k) = none := by
  left
  have hgmem : g ∈ groups := (List.mem_filter.mp hg).1
  have hsub : ∀ x ∈ availableGroupsOf groups, x ∈ groups :=
    fun x hx => (List.mem_filter.mp hx).1
  have hinit : couplingINV (Env.mk groups sch) g
      (registerAssigned (Env.mk groups sch) (freshState sch)).assign := by
    intro k' h0 h1 _
    rw [registerAssigned_assign] at h1
    have h1' : initAssign sch k' = some g.id := h1
    rw [h0] at h1'
    cases h1'
  unfold fill_schedule at hassigned ⊢
  dsimp only at hassigned ⊢
  by_cases h1 : (availableGroupsOf groups).isEmpty
  · rw [if_pos h1] at hassigned
    exfalso
    rw [registerAssigned_assign] at hassigned
    have h1' : initAssign sch k = some g.id := hassigned
    rw [hempty] at h1'
    cases h1'
  · rw [if_neg h1] at hassigned ⊢
    by_cases h2 : (emptySlotsOf sch).isEmpty
    · rw [if_pos h2] at hassigned
      exfalso
      rw [registerAssigned_assign] at hassigned
      have h1' : initAssign sch k = some g.id := hassigned
      rw [hempty] at h1'
      cases h1'
    · rw [if_neg h2] at hassigned ⊢
      exact fill_fold_inv (Env.mk groups sch) (availableGroupsOf groups) _ g hpos hids
        hsub hgmem order _ horder hinit k hempty hassigned hcov

theorem C5_coupling_invariant_witness :
    (fill_schedule [groupC5] schedC5 [⟨0, 10, 1⟩]).assign (otherKey ⟨0, 10, 1⟩) =
      some "W" ∨
    (fill_schedule [groupC5] schedC5 [⟨0, 10, 1⟩]).assign (otherKey ⟨0, 10, 1⟩) = none := by
  have h := C5_coupling_invariant [groupC5] schedC5 [⟨0, 10, 1⟩] (by decide) (by decide)
    (by decide) groupC5 (by decide) (by decide) ⟨0, 10, 1⟩ (by decide) (by decide) (by decide)
  exact h

/-! ### Effect lemmas for the revert-restoration proof (claim C3):
each mutating primitive's exact effect on the four persistent state
components (`assign`, `rule_usage`, `usage_counters`, `gstates`). -/

theorem updateUsage_counters (st : SchedState) (uid : String) (δ : Int) (u : String) :
    (updateUsage st uid δ).usage_counters u =
      st.usage_counters u + (if u = uid then δ else 0) := by
  unfold updateUsage
  by_cases h : u = uid
  · subst h
    simp [Function.update_same]
  · simp [Function.update_noteq h, h]

theorem updateUsage_gstates (st : SchedState) (uid : String) (δ : Int) :
    (updateUsage st uid δ).gstates = st.gstates := rfl

theorem updateUsage_rule_usage (st : SchedState) (uid : String) (δ : Int) :
    (updateUsage st uid δ).rule_usage = st.rule_usage := rfl

theorem rules_onAssign_usage (s : ScheduleSlot) :
    ∀ (rules : List RuleDict) (st : SchedState) (u : String),
      (rules.foldl (fun acc r =>
        if ruleMatches r s then updateUsage acc (r.uid.getD "") 1 else acc) st).usage_counters u =
      st.usage_counters u + rulesDelta s u rules := by
  intro rules
  induction rules with
  | nil => intro st u; simp [rulesDelta]
  | cons r rs ih =>
    intro st u
    rw [List.foldl_cons, ih]
    by_cases hm : ruleMatches r s = true
    · rw [if_pos hm, updateUsage_counters]
      simp only [rulesDelta, hm, Bool.true_and]
      by_cases hu : r.uid.getD "" = u
      · simp [hu]
        omega
      · have hu' : ¬(u = r.uid.getD "") := fun h => hu h.symm
        simp [hu, hu']
    · rw [if_neg hm]
      simp [rulesDelta, hm]

theorem rules_onAssign_other (s : ScheduleSlot) :
    ∀ (rules : List RuleDict) (st : SchedState),
      (rules.foldl (fun acc r =>
        if ruleMatches r s then updateUsage acc (r.uid.getD "") 1 else acc) st).gstates =
        st.gstates ∧
      (rules.foldl (fun acc r =>
        if ruleMatches r s then updateUsage acc (r.uid.getD "") 1 else acc) st).rule_usage =
        st.rule_usage := by
  intro rules
  induction rules with
  | nil => intro st; exact ⟨rfl, rfl⟩
  | cons r rs ih =>
    intro st
    rw [List.foldl_cons]
    rcases ih (if ruleMatches r s then updateUsage st (r.uid.getD "") 1 else st) with ⟨h1, h2⟩
    constructor
    · rw [h1]; split <;> rfl
    · rw [h2]; split <;> rfl

theorem rules_onRemove_usage (s : ScheduleSlot) :
    ∀ (rules : List RuleDict) (st : SchedState) (u : String),
      (rules.foldl (fun acc r =>
        if ruleMatches r s then updateUsage acc (r.uid.getD "") (-1) else acc) st).usage_counters u =
      st.usage_counters u - rulesDelta s u rules := by
  intro rules
  induction rules with
  | nil => intro st u; simp [rulesDelta]
  | cons r rs ih =>
    intro st u
    rw [List.foldl_cons, ih]
    by_cases hm : ruleMatches r s = true
    · rw [if_pos hm, updateUsage_counters]
      simp only [rulesDelta, hm, Bool.true_and]
      by_cases hu : r.uid.getD "" = u
      · simp [hu]
        omega
      · have hu' : ¬(u = r.uid.getD "") := fun h => hu h.symm
        simp [hu, hu']
    · rw [if_neg hm]
      simp [rulesDelta, hm]

theorem rules_onRemove_other (s : ScheduleSlot) :
    ∀ (rules : List RuleDict) (st : SchedState),
      (rules.foldl (fun acc r =>
        if ruleMatches r s then updateUsage acc (r.uid.getD "") (-1) else acc) st).gstates =
        st.gstates ∧
      (rules.foldl (fun acc r =>
        if ruleMatches r s then updateUsage acc (r.uid.getD "") (-1) else acc) st).rule_usage =
        st.rule_usage := by
  intro rules
  induction rules with
  | nil => intro st; exact ⟨rfl, rfl⟩
  | cons r rs ih =>
    intro st
    rw [List.foldl_cons]
    rcases ih (if ruleMatches r s then updateUsage st (r.uid.getD "") (-1) else st) with ⟨h1, h2⟩
    constructor
    · rw [h1]; split <;> rfl
    · rw [h2]; split <;> rfl

theorem onAssign_usage (c : Constraint) (st : SchedState) (s : ScheduleSlot) (u : String) :
    (c.on_assign st s).usage_counters u = st.usage_counters u + cDelta c s u := by
  cases c with
  | staffingRules uu rules => exact rules_onAssign_usage s rules st u
  | unavailability uu r => simp [Constraint.on_assign, cDelta]
  | activityWindow uu w => simp [Constraint.on_assign, cDelta]
  | dateSpecific uu d => simp [Constraint.on_assign, cDelta]
  | simultaneous uu a => simp [Constraint.on_assign, cDelta]
  | consecutive uu => simp [Constraint.on_assign, cDelta]
  | rest uu => simp [Constraint.on_assign, cDelta]

theorem onRemove_usage (c : Constraint) (st : SchedState) (s : ScheduleSlot) (u : String) :
    (c.on_remove st s).usage_counters u = st.usage_counters u - cDelta c s u := by
  cases c with
  | staffingRules uu rules => exact rules_onRemove_usage s rules st u
  | unavailability uu r => simp [Constraint.on_remove, cDelta]
  | activityWindow uu w => simp [Constraint.on_remove, cDelta]
  | dateSpecific uu d => simp [Constraint.on_remove, cDelta]
  | simultaneous uu a => simp [Constraint.on_remove, cDelta]
  | consecutive uu => simp [Constraint.on_remove, cDelta]
  | rest uu => simp [Constraint.on_remove, cDelta]

theorem onAssign_other (c : Constraint) (st : SchedState) (s : ScheduleSlot) :
    (c.on_assign st s).gstates = st.gstates ∧ (c.on_assign st s).rule_usage = st.rule_usage := by
  cases c with
  | staffingRules uu rules => exact rules_onAssign_other s rules st
  | unavailability uu r => exact ⟨rfl, rfl⟩
  | activityWindow uu w => exact ⟨rfl, rfl⟩
  | dateSpecific uu d => exact ⟨rfl, rfl⟩
  | simultaneous uu a => exact ⟨rfl, rfl⟩
  | consecutive uu => exact ⟨rfl, rfl⟩
  | rest uu => exact ⟨rfl, rfl⟩

theorem onRemove_other (c : Constraint) (st : SchedState) (s : ScheduleSlot) :
    (c.on_remove st s).gstates = st.gstates ∧ (c.on_remove st s).rule_usage = st.rule_usage := by
  cases c with
  | staffingRules uu rules => exact rules_onRemove_other s rules st
  | unavailability uu r => exact ⟨rfl, rfl⟩
  | activityWindow uu w => exact ⟨rfl, rfl⟩
  | dateSpecific uu d => exact ⟨rfl, rfl⟩
  | simultaneous uu a => exact ⟨rfl, rfl⟩
  | consecutive uu => exact ⟨rfl, rfl⟩
  | rest uu => exact ⟨rfl, rfl⟩

theorem cs_onAssign_usage (s : ScheduleSlot) :
    ∀ (cs : List Constraint) (st : SchedState) (u : String),
      (cs.foldl (fun acc c => c.on_assign acc s) st).usage_counters u =
        st.usage_counters u + csDelta s u cs := by
  intro cs
  induction cs with
  | nil => intro st u; simp [csDelta]
  | cons c chs ih =>
    intro st u
    rw [List.foldl_cons, ih, onAssign_usage]
    simp [csDelta]
    omega

theorem cs_onRemove_usage (s : ScheduleSlot) :
    ∀ (cs : List Constraint) (st : SchedState) (u : String),
      (cs.foldl (fun acc c => c.on_remove acc s) st).usage_counters u =
        st.usage_counters u - csDelta s u cs := by
  intro cs
  induction cs with
  | nil => intro st u; simp [csDelta]
  | cons c chs ih =>
    intro st u
    rw [List.foldl_cons, ih, onRemove_usage]
    simp [csDelta]
    omega

theorem cs_onAssign_other (s : ScheduleSlot) :
    ∀ (cs : List Constraint) (st : SchedState),
      (cs.foldl (fun acc c => c.on_assign acc s) st).gstates = st.gstates ∧
      (cs.foldl (fun acc c => c.on_assign acc s) st).rule_usage = st.rule_usage := by
  intro cs
  induction cs with
  | nil => intro st; exact ⟨rfl, rfl⟩
  | cons c chs ih =>
    intro st
    rw [List.foldl_cons]
    rcases ih (c.on_assign st s) with ⟨h1, h2⟩
    rcases onAssign_other c st s with ⟨h3, h4⟩
    exact ⟨h1.trans h3, h2.trans h4⟩

theorem cs_onRemove_other (s : ScheduleSlot) :
    ∀ (cs : List Constraint) (st : SchedState),
      (cs.foldl (fun acc c => c.on_remove acc s) st).gstates = st.gstates ∧
      (cs.foldl (fun acc c => c.on_remove acc s) st).rule_usage = st.rule_usage := by
  intro cs
  induction cs with
  | nil => intro st; exact ⟨rfl, rfl⟩
  | cons c chs ih =>
    intro st
    rw [List.foldl_cons]
    rcases ih (c.on_remove st s) with ⟨h1, h2⟩
    rcases onRemove_other c st s with ⟨h3, h4⟩
    exact ⟨h1.trans h3, h2.trans h4⟩

theorem notify_assignment_usage (g : SGroup) (st : SchedState) (s : ScheduleSlot)
    (u : String) :
    (notify_assignment g st s).usage_counters u = st.usage_counters u + gDelta g s u := by
  unfold notify_assignment
  rw [cs_onAssign_usage]
  rfl

theorem notify_assignment_rule_usage (g : SGroup) (st : SchedState) (s : ScheduleSlot) :
    (notify_assignment g st s).rule_usage = st.rule_usage := by
  unfold notify_assignment
  rcases cs_onAssign_other s g.constraints
    { setGState st g.id ⟨insKey s.key (st.gstates g.id).assigned, none, true⟩ with
      ctx_group_id := some g.id } with ⟨_, h2⟩
  exact h2

theorem notify_assignment_gstates (g : SGroup) (st : SchedState) (s : ScheduleSlot) :
    (notify_assignment g st s).gstates =
      Function.update st.gstates g.id
        ⟨insKey s.key (st.gstates g.id).assigned, none, true⟩ := by
  unfold notify_assignment
  rcases cs_onAssign_other s g.constraints
    { setGState st g.id ⟨insKey s.key (st.gstates g.id).assigned, none, true⟩ with
      ctx_group_id := some g.id } with ⟨h1, _⟩
  exact h1

theorem notify_removal_usage (g : SGroup) (st : SchedState) (s : ScheduleSlot)
    (u : String) :
    (notify_removal g st s).usage_counters u = st.usage_counters u - gDelta g s u := by
  unfold notify_removal
  rw [cs_onRemove_usage]
  split <;> rfl

theorem notify_removal_rule_usage (g : SGroup) (st : SchedState) (s : ScheduleSlot) :
    (notify_removal g st s).rule_usage = st.rule_usage := by
  unfold notify_removal
  rcases cs_onRemove_other s g.constraints
    { (if s.key ∈ (st.gstates g.id).assigned then
        setGState st g.id ⟨removeKey s.key (st.gstates g.id).assigned, none, true⟩
      else st) with ctx_group_id := some g.id } with ⟨_, h2⟩
  rw [h2]
  split <;> rfl

theorem notify_removal_gstates (g : SGroup) (st : SchedState) (s : ScheduleSlot) :
    (notify_removal g st s).gstates =
      if s.key ∈ (st.gstates g.id).assigned then
        Function.update st.gstates g.id
          ⟨removeKey s.key (st.gstates g.id).assigned, none, true⟩
      else st.gstates := by
  unfold notify_removal
  rcases cs_onRemove_other s g.constraints
    { (if s.key ∈ (st.gstates g.id).assigned then
        setGState st g.id ⟨removeKey s.key (st.gstates g.id).assigned, none, true⟩
      else st) with ctx_group_id := some g.id } with ⟨h1, _⟩
  rw [h1]
  split <;> rfl

theorem bumpRuleUsage_rule (st : SchedState) (key : GroupId × Nat × Nat) (δ : Int)
    (key' : GroupId × Nat × Nat) :
    (bumpRuleUsage st key δ).rule_usage key' =
      st.rule_usage key' + (if key' = key then δ else 0) := by
  unfold bumpRuleUsage
  by_cases h : key' = key
  · subst h
    simp [Function.update_same]
  · simp [Function.update_noteq h, h]

theorem ruleUsageLoop_rule (s : ScheduleSlot) (gid : GroupId) (ci : Nat) (δ : Int) :
    ∀ (rules : List RuleDict) (ri : Nat) (st : SchedState) (key : GroupId × Nat × Nat),
      (ruleUsageLoop s gid ci δ rules ri st).rule_usage key =
        st.rule_usage key + δ * rulesRDelta gid ci s key ri rules := by
  intro rules
  induction rules with
  | nil => intro ri st key; simp [ruleUsageLoop, rulesRDelta]
  | cons r rs ih =>
    intro ri st key
    rw [ruleUsageLoop, ih]
    by_cases hm : ruleMatches r s = true
    · rw [if_pos hm, bumpRuleUsage_rule]
      simp only [rulesRDelta, hm, Bool.true_and]
      by_cases hk : (gid, ci, ri) = key
      · subst hk
        simp
        ring
      · have hk' : ¬(key = (gid, ci, ri)) := fun h => hk h.symm
        simp [hk, hk']
    · rw [if_neg hm]
      simp [rulesRDelta, hm]

theorem ruleUsageLoop_other (s : ScheduleSlot) (gid : GroupId) (ci : Nat) (δ : Int) :
    ∀ (rules : List RuleDict) (ri : Nat) (st : SchedState),
      (ruleUsageLoop s gid ci δ rules ri st).usage_counters = st.usage_counters ∧
      (ruleUsageLoop s gid ci δ rules ri st).gstates = st.gstates := by
  intro rules
  induction rules with
  | nil => intro ri st; exact ⟨rfl, rfl⟩
  | cons r rs ih =>
    intro ri st
    rw [ruleUsageLoop]
    rcases ih (ri + 1) (if ruleMatches r s then bumpRuleUsage st (gid, ci, ri) δ else st)
      with ⟨h1, h2⟩
    constructor
    · rw [h1]; split <;> rfl
    · rw [h2]; split <;> rfl

theorem constraintUsageLoop_rule (s : ScheduleSlot) (gid : GroupId) (δ : Int) :
    ∀ (cs : List Constraint) (ci : Nat) (st : SchedState) (key : GroupId × Nat × Nat),
      (constraintUsageLoop s gid δ cs ci st).rule_usage key =
        st.rule_usage key + δ * csRDelta gid s key ci cs := by
  intro cs
  induction cs with
  | nil => intro ci st key; simp [constraintUsageLoop, csRDelta]
  | cons c chs ih =>
    intro ci st key
    cases c with
    | staffingRules uu rules =>
      rw [constraintUsageLoop, ih, ruleUsageLoop_rule]
      simp only [csRDelta]
      ring
    | unavailability uu r => refine (ih (ci + 1) st key).trans ?_; simp [csRDelta]
    | activityWindow uu w => refine (ih (ci + 1) st key).trans ?_; simp [csRDelta]
    | dateSpecific uu d => refine (ih (ci + 1) st key).trans ?_; simp [csRDelta]
    | simultaneous uu a => refine (ih (ci + 1) st key).trans ?_; simp [csRDelta]
    | consecutive uu => refine (ih (ci + 1) st key).trans ?_; simp [csRDelta]
    | rest uu => refine (ih (ci + 1) st key).trans ?_; simp [csRDelta]

theorem constraintUsageLoop_other (s : ScheduleSlot) (gid : GroupId) (δ : Int) :
    ∀ (cs : List Constraint) (ci : Nat) (st : SchedState),
      (constraintUsageLoop s gid δ cs ci st).usage_counters = st.usage_counters ∧
      (constraintUsageLoop s gid δ cs ci st).gstates = st.gstates := by
  intro cs
  induction cs with
  | nil => intro ci st; exact ⟨rfl, rfl⟩
  | cons c chs ih =>
    intro ci st
    cases c with
    | staffingRules uu rules =>
      rw [constraintUsageLoop]
      rcases ih (ci + 1) (ruleUsageLoop s gid ci δ rules 0 st) with ⟨h1, h2⟩
      rcases ruleUsageLoop_other s gid ci δ rules 0 st with ⟨h3, h4⟩
      exact ⟨h1.trans h3, h2.trans h4⟩
    | unavailability uu r => exact ih (ci + 1) st
    | activityWindow uu w => exact ih (ci + 1) st
    | dateSpecific uu d => exact ih (ci + 1) st
    | simultaneous uu a => exact ih (ci + 1) st
    | consecutive uu => exact ih (ci + 1) st
    | rest uu => exact ih (ci + 1) st

theorem update_usage_for_slot_rule (st : SchedState) (s : ScheduleSlot) (g : SGroup)
    (δ : Int) (key : GroupId × Nat × Nat) :
    (update_usage_for_slot st s g δ).rule_usage key =
      st.rule_usage key + δ * rDelta g s key := by
  unfold update_usage_for_slot rDelta
  exact constraintUsageLoop_rule s g.id δ g.constraints 0 st key

theorem update_usage_for_slot_other (st : SchedState) (s : ScheduleSlot) (g : SGroup)
    (δ : Int) :
    (update_usage_for_slot st s g δ).usage_counters = st.usage_counters ∧
    (update_usage_for_slot st s g δ).gstates = st.gstates := by
  unfold update_usage_for_slot
  exact constraintUsageLoop_other s g.id δ g.constraints 0 st

/-! ### The assigned-slot set model: membership and sortedness lemmas for
`insKey` / `removeKey`. -/

theorem keyEnc_injective {a b : SlotKey} (h : keyEnc a = keyEnc b) : a = b := by
  unfold keyEnc at h
  rcases Nat.pair_eq_pair.1 h with ⟨h1, h2⟩
  rcases Nat.pair_eq_pair.1 h2 with ⟨h3, h4⟩
  cases a; cases b
  simp_all

theorem KSorted_pairwise (l : List SlotKey) :
    KSorted l ↔ l.Pairwise fun a b => keyEnc a < keyEnc b := by
  haveI : IsTrans SlotKey (fun a b => keyEnc a < keyEnc b) :=
    ⟨fun a b c h1 h2 => Nat.lt_trans h1 h2⟩
  exact List.chain'_iff_pairwise

theorem nodup_of_KSorted (l : List SlotKey) (h : KSorted l) : l.Nodup := by
  have hp := (KSorted_pairwise l).1 h
  exact hp.imp fun hab he => absurd (he ▸ hab) (lt_irrefl _)

theorem mem_insKey (k : SlotKey) : ∀ (l : List SlotKey) (z : SlotKey),
    z ∈ insKey k l ↔ z = k ∨ z ∈ l := by
  intro l
  induction l with
  | nil => intro z; simp [insKey]
  | cons y ys ih =>
    intro z
    rw [insKey]
    by_cases hk : k = y
    · subst hk
      rw [if_pos rfl]
      simp only [List.mem_cons]
      tauto
    · rw [if_neg hk]
      by_cases hlt : keyEnc k < keyEnc y
      · rw [if_pos hlt]
        simp only [List.mem_cons]
      · rw [if_neg hlt]
        simp only [List.mem_cons, ih]
        tauto

theorem KSorted_insKey (k : SlotKey) : ∀ (l : List SlotKey),
    KSorted l → KSorted (insKey k l) := by
  intro l
  simp only [KSorted_pairwise]
  induction l with
  | nil => intro _; simp [insKey]
  | cons y ys ih =>
    intro h
    rw [List.pairwise_cons] at h
    rcases h with ⟨hy, hys⟩
    rw [insKey]
    by_cases hk : k = y
    · rw [if_pos hk]
      exact List.Pairwise.cons hy hys
    · rw [if_neg hk]
      by_cases hlt : keyEnc k < keyEnc y
      · rw [if_pos hlt]
        refine List.Pairwise.cons ?_ (List.Pairwise.cons hy hys)
        intro z hz
        rcases List.mem_cons.1 hz with hz | hz
        · subst hz; exact hlt
        · exact Nat.lt_trans hlt (hy z hz)
      · rw [if_neg hlt]
        have hyk : keyEnc y < keyEnc k := by
          rcases Nat.lt_trichotomy (keyEnc k) (keyEnc y) with h1 | h1 | h1
          · exact absurd h1 hlt
          · exact absurd (keyEnc_injective h1) hk
          · exact h1
        refine List.Pairwise.cons ?_ (ih hys)
        intro z hz
        rcases (mem_insKey k ys z).1 hz with hz | hz
        · subst hz; exact hyk
        · exact hy z hz

theorem removeKey_sublist (k : SlotKey) :
    ∀ l : List SlotKey, List.Sublist (removeKey k l) l := by
  intro l
  induction l with
  | nil => simp [removeKey]
  | cons y ys ih =>
    rw [removeKey]
    by_cases h : k = y
    · rw [if_pos h]
      exact List.Sublist.cons y (List.Sublist.refl ys)
    · rw [if_neg h]
      exact List.Sublist.cons₂ y ih

theorem KSorted_removeKey (k : SlotKey) (l : List SlotKey) (h : KSorted l) :
    KSorted (removeKey k l) := by
  rw [KSorted_pairwise] at h ⊢
  exact List.Pairwise.sublist (removeKey_sublist k l) h

theorem mem_removeKey (k : SlotKey) : ∀ (l : List SlotKey), l.Nodup →
    ∀ z : SlotKey, z ∈ removeKey k l ↔ z ∈ l ∧ z ≠ k := by
  intro l
  induction l with
  | nil => intro _ z; simp [removeKey]
  | cons y ys ih =>
    intro hnd z
    rw [List.nodup_cons] at hnd
    rcases hnd with ⟨hy, hys⟩
    rw [removeKey]
    by_cases h : k = y
    · subst h
      rw [if_pos rfl]
      simp only [List.mem_cons]
      constructor
      · intro hz
        refine ⟨Or.inr hz, ?_⟩
        intro he
        exact hy (he ▸ hz)
      · rintro ⟨hz | hz, hne⟩
        · exact absurd hz hne
        · exact hz
    · rw [if_neg h]
      simp only [List.mem_cons, ih hys]
      constructor
      · rintro (hz | ⟨hz, hne⟩)
        · exact ⟨Or.inl hz, fun he => h (he.symm.trans hz)⟩
        · exact ⟨Or.inr hz, hne⟩
      · rintro ⟨hz | hz, hne⟩
        · exact Or.inl hz
        · exact Or.inr ⟨hz, hne⟩

/-! ### The two primitive slot operations of the move machinery:
`notify_removal` + usage decrement, and `notify_assignment` + usage
increment, both at one slot key. -/

theorem remOp_assign (env : Env) (g : SGroup) (st : SchedState) (k : SlotKey) :
    (update_usage_for_slot (notify_removal g st (env.infoOf k)) (env.infoOf k)
      g (-1)).assign = st.assign := by
  rw [update_usage_for_slot_assign, notify_removal_assign]

theorem remOp_usage (env : Env) (g : SGroup) (st : SchedState) (k : SlotKey)
    (u : String) :
    (update_usage_for_slot (notify_removal g st (env.infoOf k)) (env.infoOf k)
      g (-1)).usage_counters u = st.usage_counters u - gDelta g (env.infoOf k) u := by
  rw [(update_usage_for_slot_other _ _ _ _).1, notify_removal_usage]

theorem remOp_rule (env : Env) (g : SGroup) (st : SchedState) (k : SlotKey)
    (key : GroupId × Nat × Nat) :
    (update_usage_for_slot (notify_removal g st (env.infoOf k)) (env.infoOf k)
      g (-1)).rule_usage key = st.rule_usage key - rDelta g (env.infoOf k) key := by
  rw [update_usage_for_slot_rule]
  rw [notify_removal_rule_usage]
  ring

theorem remOp_gstates (env : Env) (g : SGroup) (st : SchedState) (k : SlotKey) :
    (update_usage_for_slot (notify_removal g st (env.infoOf k)) (env.infoOf k)
      g (-1)).gstates =
      if k ∈ (st.gstates g.id).assigned then
        Function.update st.gstates g.id
          ⟨removeKey k (st.gstates g.id).assigned, none, true⟩
      else st.gstates := by
  rw [(update_usage_for_slot_other _ _ _ _).2, notify_removal_gstates, infoOf_key]

theorem remOp_gstates_other (env : Env) (g : SGroup) (st : SchedState) (k : SlotKey)
    (gid : GroupId) (h : gid ≠ g.id) :
    (update_usage_for_slot (notify_removal g st (env.infoOf k)) (env.infoOf k)
      g (-1)).gstates gid = st.gstates gid := by
  rw [remOp_gstates]
  split
  · rw [Function.update_noteq h]
  · rfl

theorem remOp_mem (env : Env) (g : SGroup) (st : SchedState) (k : SlotKey)
    (hnd : ((st.gstates g.id).assigned).Nodup) (gid : GroupId) (x : SlotKey) :
    (x ∈ ((update_usage_for_slot (notify_removal g st (env.infoOf k)) (env.infoOf k)
      g (-1)).gstates gid).assigned) ↔
      x ∈ ((st.gstates gid).assigned) ∧ ¬(x = k ∧ g.id = gid) := by
  rw [remOp_gstates]
  by_cases hgid : gid = g.id
  · subst hgid
    split
    · rename_i hm
      rw [Function.update_same]
      show x ∈ removeKey k (st.gstates g.id).assigned ↔ _
      rw [mem_removeKey k _ hnd x]
      constructor
      · rintro ⟨h1, h2⟩
        exact ⟨h1, fun hc => h2 hc.1⟩
      · rintro ⟨h1, h2⟩
        exact ⟨h1, fun hc => h2 ⟨hc, rfl⟩⟩
    · rename_i hm
      constructor
      · intro h1
        refine ⟨h1, ?_⟩
        rintro ⟨rfl, -⟩
        exact hm h1
      · exact fun h1 => h1.1
  · split
    · rw [Function.update_noteq hgid]
      exact ⟨fun h1 => ⟨h1, fun hc => hgid hc.2.symm⟩, fun h1 => h1.1⟩
    · exact ⟨fun h1 => ⟨h1, fun hc => hgid hc.2.symm⟩, fun h1 => h1.1⟩

theorem remOp_KSorted (env : Env) (g : SGroup) (st : SchedState) (k : SlotKey)
    (hK : ∀ gid, KSorted ((st.gstates gid).assigned)) (gid : GroupId) :
    KSorted (((update_usage_for_slot (notify_removal g st (env.infoOf k))
      (env.infoOf k) g (-1)).gstates gid).assigned) := by
  rw [remOp_gstates]
  split
  · by_cases hgid : gid = g.id
    · subst hgid
      rw [Function.update_same]
      exact KSorted_removeKey k _ (hK g.id)
    · rw [Function.update_noteq hgid]
      exact hK gid
  · exact hK gid

theorem remOp_cacheinv (env : Env) (g : SGroup) (st : SchedState) (k : SlotKey)
    (gid : GroupId)
    (h : (st.gstates gid).cached = none ∧ (st.gstates gid).dirty = true) :
    ((update_usage_for_slot (notify_removal g st (env.infoOf k)) (env.infoOf k)
      g (-1)).gstates gid).cached = none ∧
    ((update_usage_for_slot (notify_removal g st (env.infoOf k)) (env.infoOf k)
      g (-1)).gstates gid).dirty = true := by
  rw [remOp_gstates]
  split
  · by_cases hgid : gid = g.id
    · subst hgid
      rw [Function.update_same]
      exact ⟨rfl, rfl⟩
    · rw [Function.update_noteq hgid]
      exact h
  · exact h

theorem insOp_assign (env : Env) (g : SGroup) (st : SchedState) (k : SlotKey) :
    (update_usage_for_slot (notify_assignment g st (env.infoOf k)) (env.infoOf k)
      g 1).assign = st.assign := by
  rw [update_usage_for_slot_assign, notify_assignment_assign]

theorem insOp_usage (env : Env) (g : SGroup) (st : SchedState) (k : SlotKey)
    (u : String) :
    (update_usage_for_slot (notify_assignment g st (env.infoOf k)) (env.infoOf k)
      g 1).usage_counters u = st.usage_counters u + gDelta g (env.infoOf k) u := by
  rw [(update_usage_for_slot_other _ _ _ _).1, notify_assignment_usage]

theorem insOp_rule (env : Env) (g : SGroup) (st : SchedState) (k : SlotKey)
    (key : GroupId × Nat × Nat) :
    (update_usage_for_slot (notify_assignment g st (env.infoOf k)) (env.infoOf k)
      g 1).rule_usage key = st.rule_usage key + rDelta g (env.infoOf k) key := by
  rw [update_usage_for_slot_rule]
  rw [notify_assignment_rule_usage]
  ring

theorem insOp_gstates (env : Env) (g : SGroup) (st : SchedState) (k : SlotKey) :
    (update_usage_for_slot (notify_assignment g st (env.infoOf k)) (env.infoOf k)
      g 1).gstates =
      Function.update st.gstates g.id
        ⟨insKey k (st.gstates g.id).assigned, none, true⟩ := by
  rw [(update_usage_for_slot_other _ _ _ _).2, notify_assignment_gstates, infoOf_key]

theorem insOp_gstates_other (env : Env) (g : SGroup) (st : SchedState) (k : SlotKey)
    (gid : GroupId) (h : gid ≠ g.id) :
    (update_usage_for_slot (notify_assignment g st (env.infoOf k)) (env.infoOf k)
      g 1).gstates gid = st.gstates gid := by
  rw [insOp_gstates, Function.update_noteq h]

theorem insOp_mem (env : Env) (g : SGroup) (st : SchedState) (k : SlotKey)
    (gid : GroupId) (x : SlotKey) :
    (x ∈ ((update_usage_for_slot (notify_assignment g st (env.infoOf k))
      (env.infoOf k) g 1).gstates gid).assigned) ↔
      x ∈ ((st.gstates gid).assigned) ∨ (x = k ∧ g.id = gid) := by
  rw [insOp_gstates]
  by_cases hgid : gid = g.id
  · subst hgid
    rw [Function.update_same]
    show x ∈ insKey k (st.gstates g.id).assigned ↔ _
    rw [mem_insKey]
    constructor
    · rintro (rfl | h1)
      · exact Or.inr ⟨rfl, rfl⟩
      · exact Or.inl h1
    · rintro (h1 | ⟨rfl, -⟩)
      · exact Or.inr h1
      · exact Or.inl rfl
  · rw [Function.update_noteq hgid]
    exact ⟨fun h1 => Or.inl h1, fun h1 => h1.elim id fun hc => absurd hc.2.symm hgid⟩

theorem insOp_KSorted (env : Env) (g : SGroup) (st : SchedState) (k : SlotKey)
    (hK : ∀ gid, KSorted ((st.gstates gid).assigned)) (gid : GroupId) :
    KSorted (((update_usage_for_slot (notify_assignment g st (env.infoOf k))
      (env.infoOf k) g 1).gstates gid).assigned) := by
  rw [insOp_gstates]
  by_cases hgid : gid = g.id
  · subst hgid
    rw [Function.update_same]
    exact KSorted_insKey k _ (hK g.id)
  · rw [Function.update_noteq hgid]
    exact hK gid

theorem insOp_cache_self (env : Env) (g : SGroup) (st : SchedState) (k : SlotKey) :
    ((update_usage_for_slot (notify_assignment g st (env.infoOf k)) (env.infoOf k)
      g 1).gstates g.id).cached = none ∧
    ((update_usage_for_slot (notify_assignment g st (env.infoOf k)) (env.infoOf k)
      g 1).gstates g.id).dirty = true := by
  rw [insOp_gstates, Function.update_same]
  exact ⟨rfl, rfl⟩

theorem insOp_cacheinv (env : Env) (g : SGroup) (st : SchedState) (k : SlotKey)
    (gid : GroupId)
    (h : (st.gstates gid).cached = none ∧ (st.gstates gid).dirty = true) :
    ((update_usage_for_slot (notify_assignment g st (env.infoOf k)) (env.infoOf k)
      g 1).gstates gid).cached = none ∧
    ((update_usage_for_slot (notify_assignment g st (env.infoOf k)) (env.infoOf k)
      g 1).gstates gid).dirty = true := by
  rw [insOp_gstates]
  by_cases hgid : gid = g.id
  · subst hgid
    rw [Function.update_same]
    exact ⟨rfl, rfl⟩
  · rw [Function.update_noteq hgid]
    exact h

/-! ### Move bookkeeping: key lists and hit conditions. -/

theorem tryApplyRemovals_eq (env : Env) (st : SchedState) (ps : Move) :
    tryApplyRemovals env st ps = ps.foldl (remStep env) st := rfl

theorem moveKeys_cons (p : SlotKey × SlotKey) (ps : Move) :
    moveKeys (p :: ps) = p.1 :: p.2 :: moveKeys ps := by
  simp [moveKeys]

theorem mem_moveKeys (mv : Move) (x : SlotKey) :
    x ∈ moveKeys mv ↔ ∃ p ∈ mv, x = p.1 ∨ x = p.2 := by
  unfold moveKeys
  simp [List.mem_flatMap]

theorem remHit_cons (env : Env) (a0 : SlotKey → Option GroupId)
    (p : SlotKey × SlotKey) (ps : Move) (gid : GroupId) (x : SlotKey) :
    remHit env a0 (p :: ps) gid x ↔
      ((x = p.1 ∧ gidOf env (a0 p.1) = some gid) ∨
        (x = p.2 ∧ gidOf env (a0 p.2) = some gid)) ∨
      remHit env a0 ps gid x := by
  unfold remHit
  constructor
  · rintro ⟨q, hq, hc⟩
    rcases List.mem_cons.1 hq with rfl | hq
    · exact Or.inl hc
    · exact Or.inr ⟨q, hq, hc⟩
  · rintro (hc | ⟨q, hq, hc⟩)
    · exact ⟨p, List.mem_cons_self p ps, hc⟩
    · exact ⟨q, List.mem_cons_of_mem p hq, hc⟩

theorem insHit_cons (env : Env) (a0 : SlotKey → Option GroupId)
    (p : SlotKey × SlotKey) (ps : Move) (gid : GroupId) (x : SlotKey) :
    insHit env a0 (p :: ps) gid x ↔
      ((x = p.2 ∧ gidOf env (a0 p.1) = some gid) ∨
        (x = p.1 ∧ gidOf env (a0 p.2) = some gid)) ∨
      insHit env a0 ps gid x := by
  unfold insHit
  constructor
  · rintro ⟨q, hq, hc⟩
    rcases List.mem_cons.1 hq with rfl | hq
    · exact Or.inl hc
    · exact Or.inr ⟨q, hq, hc⟩
  · rintro (hc | ⟨q, hq, hc⟩)
    · exact ⟨p, List.mem_cons_self p ps, hc⟩
    · exact ⟨q, List.mem_cons_of_mem p hq, hc⟩

theorem touchedGid_cons (env : Env) (a0 : SlotKey → Option GroupId)
    (p : SlotKey × SlotKey) (ps : Move) (gid : GroupId) :
    touchedGid env a0 (p :: ps) gid ↔
      (gidOf env (a0 p.1) = some gid ∨ gidOf env (a0 p.2) = some gid) ∨
      touchedGid env a0 ps gid := by
  unfold touchedGid
  constructor
  · rintro ⟨q, hq, hc⟩
    rcases List.mem_cons.1 hq with rfl | hq
    · exact Or.inl hc
    · exact Or.inr ⟨q, hq, hc⟩
  · rintro (hc | ⟨q, hq, hc⟩)
    · exact ⟨p, List.mem_cons_self p ps, hc⟩
    · exact ⟨q, List.mem_cons_of_mem p hq, hc⟩

theorem remHit_mem_keys (env : Env) (a0 : SlotKey → Option GroupId) (mv : Move)
    (gid : GroupId) (x : SlotKey) (h : remHit env a0 mv gid x) : x ∈ moveKeys mv := by
  rcases h with ⟨p, hp, hc⟩
  rw [mem_moveKeys]
  rcases hc with ⟨rfl, -⟩ | ⟨rfl, -⟩
  · exact ⟨p, hp, Or.inl rfl⟩
  · exact ⟨p, hp, Or.inr rfl⟩

theorem insHit_mem_keys (env : Env) (a0 : SlotKey → Option GroupId) (mv : Move)
    (gid : GroupId) (x : SlotKey) (h : insHit env a0 mv gid x) : x ∈ moveKeys mv := by
  rcases h with ⟨p, hp, hc⟩
  rw [mem_moveKeys]
  rcases hc with ⟨rfl, -⟩ | ⟨rfl, -⟩
  · exact ⟨p, hp, Or.inr rfl⟩
  · exact ⟨p, hp, Or.inl rfl⟩

/-! ### The validity-check phase leaves the four persistent components
untouched (it only rewrites the context fields). -/

theorem tryApplyCheckPair_core (env : Env) (pairs : Move) (acc : Bool × SchedState)
    (p : SlotKey × SlotKey) : coreEq (tryApplyCheckPair env pairs acc p).2 acc.2 := by
  unfold tryApplyCheckPair SGroup.is_available
  dsimp only
  split
  · split
    · exact ⟨rfl, rfl, rfl, rfl⟩
    · exact ⟨rfl, rfl, rfl, rfl⟩
  · split
    · exact ⟨rfl, rfl, rfl, rfl⟩
    · exact ⟨rfl, rfl, rfl, rfl⟩

theorem checkFold_core (env : Env) (pairs : Move) :
    ∀ (ps : Move) (acc : Bool × SchedState),
      coreEq ((ps.foldl (tryApplyCheckPair env pairs) acc).2) acc.2 := by
  intro ps
  induction ps with
  | nil => intro acc; exact ⟨rfl, rfl, rfl, rfl⟩
  | cons p ps ih =>
    intro acc
    rw [List.foldl_cons]
    rcases ih (tryApplyCheckPair env pairs acc p) with ⟨h1, h2, h3, h4⟩
    rcases tryApplyCheckPair_core env pairs acc p with ⟨g1, g2, g3, g4⟩
    exact ⟨h1.trans g1, h2.trans g2, h3.trans g3, h4.trans g4⟩

/-! ### Stage 1: the removal phase of `_try_apply_move`. -/

theorem remStep_spec (env : Env) (st : SchedState) (p : SlotKey × SlotKey)
    (hK : ∀ gid, KSorted ((st.gstates gid).assigned)) :
    (remStep env st p).assign = st.assign ∧
    (∀ u, (remStep env st p).usage_counters u = st.usage_counters u -
      optG env (st.assign p.1) p.1 u - optG env (st.assign p.2) p.2 u) ∧
    (∀ key, (remStep env st p).rule_usage key = st.rule_usage key -
      optR env (st.assign p.1) p.1 key - optR env (st.assign p.2) p.2 key) ∧
    (∀ gid, KSorted (((remStep env st p).gstates gid).assigned)) ∧
    (∀ gid x, (x ∈ ((remStep env st p).gstates gid).assigned) ↔
      (x ∈ (st.gstates gid).assigned) ∧
      ¬(x = p.1 ∧ gidOf env (st.assign p.1) = some gid) ∧
      ¬(x = p.2 ∧ gidOf env (st.assign p.2) = some gid)) ∧
    (∀ gid, gidOf env (st.assign p.1) ≠ some gid →
      gidOf env (st.assign p.2) ≠ some gid →
      (remStep env st p).gstates gid = st.gstates gid) := by
  unfold remStep
  dsimp only
  cases hg1 : get_group env (st.assign p.1) with
  | none =>
    dsimp only
    cases hg2 : get_group env (st.assign p.2) with
    | none =>
      dsimp only
      refine ⟨rfl, ?_, ?_, hK, ?_, ?_⟩
      · intro u; simp [optG, hg1, hg2]
      · intro key; simp [optR, hg1, hg2]
      · intro gid x; simp [gidOf, hg1, hg2]
      · intro gid _ _; rfl
    | some gB =>
      dsimp only
      refine ⟨remOp_assign env gB st p.2, ?_, ?_,
        fun gid => remOp_KSorted env gB st p.2 hK gid, ?_, ?_⟩
      · intro u
        rw [remOp_usage]
        simp [optG, hg1, hg2]
      · intro key
        rw [remOp_rule]
        simp [optR, hg1, hg2]
      · intro gid x
        rw [remOp_mem env gB st p.2 (nodup_of_KSorted _ (hK gB.id)) gid x]
        simp [gidOf, hg1, hg2]
        all_goals tauto
      · intro gid h1 h2
        have hne : gid ≠ gB.id := by
          intro he
          exact h2 (by simp [gidOf, hg2, he])
        exact remOp_gstates_other env gB st p.2 gid hne
  | some gA =>
    dsimp only
    rw [remOp_assign]
    cases hg2 : get_group env (st.assign p.2) with
    | none =>
      dsimp only
      refine ⟨remOp_assign env gA st p.1, ?_, ?_,
        fun gid => remOp_KSorted env gA st p.1 hK gid, ?_, ?_⟩
      · intro u
        rw [remOp_usage]
        simp [optG, hg1, hg2]
      · intro key
        rw [remOp_rule]
        simp [optR, hg1, hg2]
      · intro gid x
        rw [remOp_mem env gA st p.1 (nodup_of_KSorted _ (hK gA.id)) gid x]
        simp [gidOf, hg1, hg2]
        all_goals tauto
      · intro gid h1 h2
        have hne : gid ≠ gA.id := by
          intro he
          exact h1 (by simp [gidOf, hg1, he])
        exact remOp_gstates_other env gA st p.1 gid hne
    | some gB =>
      dsimp only
      have hKA : ∀ gid, KSorted (((update_usage_for_slot
          (notify_removal gA st (env.infoOf p.1)) (env.infoOf p.1)
          gA (-1)).gstates gid).assigned) :=
        fun gid => remOp_KSorted env gA st p.1 hK gid
      refine ⟨?_, ?_, ?_, fun gid => remOp_KSorted env gB _ p.2 hKA gid, ?_, ?_⟩
      · rw [remOp_assign, remOp_assign]
      · intro u
        rw [remOp_usage, remOp_usage]
        simp [optG, hg1, hg2]
        all_goals ring
      · intro key
        rw [remOp_rule, remOp_rule]
        simp [optR, hg1, hg2]
        all_goals ring
      · intro gid x
        rw [remOp_mem env gB _ p.2 (nodup_of_KSorted _ (hKA gB.id)) gid x,
          remOp_mem env gA st p.1 (nodup_of_KSorted _ (hK gA.id)) gid x]
        simp [gidOf, hg1, hg2]
        all_goals tauto
      · intro gid h1 h2
        have hneA : gid ≠ gA.id := by
          intro he
          exact h1 (by simp [gidOf, hg1, he])
        have hneB : gid ≠ gB.id := by
          intro he
          exact h2 (by simp [gidOf, hg2, he])
        rw [remOp_gstates_other env gB _ p.2 gid hneB,
          remOp_gstates_other env gA st p.1 gid hneA]

theorem removals_spec (env : Env) :
    ∀ (ps : Move) (st : SchedState),
      (∀ gid, KSorted ((st.gstates gid).assigned)) →
      (tryApplyRemovals env st ps).assign = st.assign ∧
      (∀ u, (tryApplyRemovals env st ps).usage_counters u =
        st.usage_counters u - mvG env st.assign u ps) ∧
      (∀ key, (tryApplyRemovals env st ps).rule_usage key =
        st.rule_usage key - mvR env st.assign key ps) ∧
      (∀ gid, KSorted (((tryApplyRemovals env st ps).gstates gid).assigned)) ∧
      (∀ gid x, (x ∈ ((tryApplyRemovals env st ps).gstates gid).assigned) ↔
        (x ∈ (st.gstates gid).assigned) ∧ ¬ remHit env st.assign ps gid x) ∧
      (∀ gid, ¬ touchedGid env st.assign ps gid →
        (tryApplyRemovals env st ps).gstates gid = st.gstates gid) := by
  intro ps
  induction ps with
  | nil =>
    intro st hK
    refine ⟨rfl, ?_, ?_, hK, ?_, ?_⟩
    · intro u; simp [tryApplyRemovals, mvG]
    · intro key; simp [tryApplyRemovals, mvR]
    · intro gid x; simp [tryApplyRemovals, remHit]
    · intro gid _; rfl
  | cons p ps ih =>
    intro st hK
    rw [tryApplyRemovals_eq, List.foldl_cons]
    have hfold : ∀ st' : SchedState, List.foldl (remStep env) st' ps =
        tryApplyRemovals env st' ps := fun _ => rfl
    rw [hfold]
    rcases remStep_spec env st p hK with ⟨sA, sU, sR, sK, sM, sO⟩
    rcases ih (remStep env st p) sK with ⟨iA, iU, iR, iK, iM, iO⟩
    refine ⟨?_, ?_, ?_, iK, ?_, ?_⟩
    · rw [iA, sA]
    · intro u
      rw [iU u, sA, sU u]
      simp only [mvG]
      ring
    · intro key
      rw [iR key, sA, sR key]
      simp only [mvR]
      ring
    · intro gid x
      rw [iM gid x, sA, sM gid x, remHit_cons]
      tauto
    · intro gid h
      rw [touchedGid_cons] at h
      have h1 : gidOf env (st.assign p.1) ≠ some gid := fun hc => h (Or.inl (Or.inl hc))
      have h2 : gidOf env (st.assign p.2) ≠ some gid := fun hc => h (Or.inl (Or.inr hc))
      have h3 : ¬ touchedGid env (remStep env st p).assign ps gid := by
        rw [sA]
        exact fun hc => h (Or.inr hc)
      exact (iO gid h3).trans (sO gid h1 h2)

/-! ### Stage 2: the apply phase of `_try_apply_move` (checks passed). -/

theorem applySwapPair_spec (env : Env) (a0 : SlotKey → Option GroupId)
    (Y : SchedState) (p : SlotKey × SlotKey)
    (h1 : Y.assign p.1 = a0 p.1) (h2 : Y.assign p.2 = a0 p.2)
    (hK : ∀ gid, KSorted ((Y.gstates gid).assigned)) :
    (applySwapPair env Y p).assign =
      Function.update (Function.update Y.assign p.1 (a0 p.2)) p.2 (a0 p.1) ∧
    (∀ u, (applySwapPair env Y p).usage_counters u = Y.usage_counters u +
      optG env (a0 p.1) p.2 u + optG env (a0 p.2) p.1 u) ∧
    (∀ key, (applySwapPair env Y p).rule_usage key = Y.rule_usage key +
      optR env (a0 p.1) p.2 key + optR env (a0 p.2) p.1 key) ∧
    (∀ gid, KSorted (((applySwapPair env Y p).gstates gid).assigned)) ∧
    (∀ gid x, (x ∈ ((applySwapPair env Y p).gstates gid).assigned) ↔
      (x ∈ (Y.gstates gid).assigned) ∨
      (x = p.2 ∧ gidOf env (a0 p.1) = some gid) ∨
      (x = p.1 ∧ gidOf env (a0 p.2) = some gid)) ∧
    (∀ gid, gidOf env (a0 p.1) ≠ some gid → gidOf env (a0 p.2) ≠ some gid →
      (applySwapPair env Y p).gstates gid = Y.gstates gid) := by
  unfold applySwapPair
  dsimp only
  rw [h1, h2]
  have hKsw : ∀ gid, KSorted ((SchedState.gstates { Y with assign := Function.update (Function.update Y.assign p.1 (a0 p.2)) p.2 (a0 p.1) } gid).assigned) := hK
  cases hg1 : get_group env (a0 p.1) with
  | none =>
    dsimp only
    cases hg2 : get_group env (a0 p.2) with
    | none =>
      dsimp only
      refine ⟨rfl, ?_, ?_, hK, ?_, ?_⟩
      · intro u; simp [optG, hg1, hg2]
      · intro key; simp [optR, hg1, hg2]
      · intro gid x; simp [gidOf, hg1, hg2]
      · intro gid _ _; rfl
    | some gB =>
      dsimp only
      refine ⟨?_, ?_, ?_, fun gid => insOp_KSorted env gB _ p.1 hKsw gid, ?_, ?_⟩
      · rw [insOp_assign]
      · intro u
        rw [insOp_usage]
        simp [optG, hg1, hg2]
      · intro key
        rw [insOp_rule]
        simp [optR, hg1, hg2]
      · intro gid x
        rw [insOp_mem]
        simp [gidOf, hg1, hg2]
        all_goals tauto
      · intro gid h1' h2'
        have hne : gid ≠ gB.id := by
          intro he
          exact h2' (by simp [gidOf, hg2, he])
        exact insOp_gstates_other env gB _ p.1 gid hne
  | some gA =>
    dsimp only
    cases hg2 : get_group env (a0 p.2) with
    | none =>
      dsimp only
      refine ⟨?_, ?_, ?_, fun gid => insOp_KSorted env gA _ p.2 hKsw gid, ?_, ?_⟩
      · rw [insOp_assign]
      · intro u
        rw [insOp_usage]
        simp [optG, hg1, hg2]
      · intro key
        rw [insOp_rule]
        simp [optR, hg1, hg2]
      · intro gid x
        rw [insOp_mem]
        simp [gidOf, hg1, hg2]
        all_goals tauto
      · intro gid h1' h2'
        have hne : gid ≠ gA.id := by
          intro he
          exact h1' (by simp [gidOf, hg1, he])
        exact insOp_gstates_other env gA _ p.2 gid hne
    | some gB =>
      dsimp only
      have hKA := fun gid => insOp_KSorted env gA { Y with assign := Function.update (Function.update Y.assign p.1 (a0 p.2)) p.2 (a0 p.1) } p.2 hKsw gid
      refine ⟨?_, ?_, ?_, fun gid => insOp_KSorted env gB _ p.1 hKA gid, ?_, ?_⟩
      · rw [insOp_assign, insOp_assign]
      · intro u
        rw [insOp_usage, insOp_usage]
        simp [optG, hg1, hg2]
        all_goals ring
      · intro key
        rw [insOp_rule, insOp_rule]
        simp [optR, hg1, hg2]
        all_goals ring
      · intro gid x
        rw [insOp_mem, insOp_mem]
        simp [gidOf, hg1, hg2]
        all_goals tauto
      · intro gid h1' h2'
        have hneA : gid ≠ gA.id := by
          intro he
          exact h1' (by simp [gidOf, hg1, he])
        have hneB : gid ≠ gB.id := by
          intro he
          exact h2' (by simp [gidOf, hg2, he])
        rw [insOp_gstates_other env gB _ p.1 gid hneB,
          insOp_gstates_other env gA _ p.2 gid hneA]

theorem applyFold_spec (env : Env) (a0 : SlotKey → Option GroupId) :
    ∀ (ps : Move) (Y : SchedState),
      (moveKeys ps).Nodup →
      (∀ k, k ∈ moveKeys ps → Y.assign k = a0 k) →
      (∀ gid, KSorted ((Y.gstates gid).assigned)) →
      (∀ k, k ∉ moveKeys ps → (ps.foldl (applySwapPair env) Y).assign k = Y.assign k) ∧
      (∀ p, p ∈ ps → (ps.foldl (applySwapPair env) Y).assign p.1 = a0 p.2 ∧
        (ps.foldl (applySwapPair env) Y).assign p.2 = a0 p.1) ∧
      (∀ u, (ps.foldl (applySwapPair env) Y).usage_counters u =
        Y.usage_counters u + mvGx env a0 u ps) ∧
      (∀ key, (ps.foldl (applySwapPair env) Y).rule_usage key =
        Y.rule_usage key + mvRx env a0 key ps) ∧
      (∀ gid, KSorted (((ps.foldl (applySwapPair env) Y).gstates gid).assigned)) ∧
      (∀ gid x, (x ∈ ((ps.foldl (applySwapPair env) Y).gstates gid).assigned) ↔
        (x ∈ (Y.gstates gid).assigned) ∨ insHit env a0 ps gid x) ∧
      (∀ gid, ¬ touchedGid env a0 ps gid →
        (ps.foldl (applySwapPair env) Y).gstates gid = Y.gstates gid) := by
  intro ps
  induction ps with
  | nil =>
    intro Y _ _ hK
    refine ⟨fun k _ => rfl, fun p hp => absurd hp (List.not_mem_nil p),
      ?_, ?_, hK, ?_, fun gid _ => rfl⟩
    · intro u; simp [mvGx]
    · intro key; simp [mvRx]
    · intro gid x; simp [insHit]
  | cons p ps ih =>
    intro Y hnd hagree hK
    rw [List.foldl_cons]
    rw [moveKeys_cons] at hnd
    rcases List.nodup_cons.1 hnd with ⟨hp1, hnd2⟩
    rcases List.nodup_cons.1 hnd2 with ⟨hp2, hndr⟩
    have hp12 : p.1 ≠ p.2 := fun he => hp1 (he ▸ List.mem_cons_self _ _)
    have hp1r : p.1 ∉ moveKeys ps := fun hc => hp1 (List.mem_cons_of_mem _ hc)
    simp only [moveKeys_cons, List.mem_cons] at hagree
    rcases applySwapPair_spec env a0 Y p (hagree p.1 (Or.inl rfl))
      (hagree p.2 (Or.inr (Or.inl rfl))) hK with ⟨sA, sU, sR, sK, sM, sO⟩
    have hagree1 : ∀ k, k ∈ moveKeys ps → (applySwapPair env Y p).assign k = a0 k := by
      intro k hk
      have hk1 : k ≠ p.1 := fun he => hp1r (he ▸ hk)
      have hk2 : k ≠ p.2 := fun he => hp2 (he ▸ hk)
      rw [sA, Function.update_noteq hk2, Function.update_noteq hk1]
      exact hagree k (Or.inr (Or.inr hk))
    rcases ih (applySwapPair env Y p) hndr hagree1 sK with ⟨iA, iP, iU, iR, iK, iM, iO⟩
    refine ⟨?_, ?_, ?_, ?_, iK, ?_, ?_⟩
    · intro k hk
      simp only [moveKeys_cons, List.mem_cons, not_or] at hk
      rcases hk with ⟨hk1, hk2, hkr⟩
      rw [iA k hkr, sA, Function.update_noteq hk2, Function.update_noteq hk1]
    · intro q hq
      rcases List.mem_cons.1 hq with rfl | hq
      · constructor
        · rw [iA q.1 hp1r, sA, Function.update_noteq hp12, Function.update_same]
        · rw [iA q.2 hp2, sA, Function.update_same]
      · exact iP q hq
    · intro u
      rw [iU u, sU u]
      simp only [mvGx]
      ring
    · intro key
      rw [iR key, sR key]
      simp only [mvRx]
      ring
    · intro gid x
      rw [iM gid x, sM gid x, insHit_cons]
      tauto
    · intro gid h
      rw [touchedGid_cons] at h
      have h1' : gidOf env (a0 p.1) ≠ some gid := fun hc => h (Or.inl (Or.inl hc))
      have h2' : gidOf env (a0 p.2) ≠ some gid := fun hc => h (Or.inl (Or.inr hc))
      have h3 : ¬ touchedGid env a0 ps gid := fun hc => h (Or.inr hc)
      exact (iO gid h3).trans (sO gid h1' h2')

/-! ### Stage 3: `_revert_move`, run on the state the apply phase left. -/

theorem revertPair_spec (env : Env) (a0 : SlotKey → Option GroupId)
    (Y : SchedState) (p : SlotKey × SlotKey)
    (hsw1 : Y.assign p.1 = a0 p.2) (hsw2 : Y.assign p.2 = a0 p.1)
    (hK : ∀ gid, KSorted ((Y.gstates gid).assigned)) :
    (revertPair env Y p).assign =
      Function.update (Function.update Y.assign p.1 (a0 p.1)) p.2 (a0 p.2) ∧
    (∀ u, (revertPair env Y p).usage_counters u = Y.usage_counters u -
      optG env (a0 p.1) p.2 u - optG env (a0 p.2) p.1 u +
      optG env (a0 p.1) p.1 u + optG env (a0 p.2) p.2 u) ∧
    (∀ key, (revertPair env Y p).rule_usage key = Y.rule_usage key -
      optR env (a0 p.1) p.2 key - optR env (a0 p.2) p.1 key +
      optR env (a0 p.1) p.1 key + optR env (a0 p.2) p.2 key) ∧
    (∀ gid, KSorted (((revertPair env Y p).gstates gid).assigned)) ∧
    (∀ gid x, (x ∈ ((revertPair env Y p).gstates gid).assigned) ↔
      ((x ∈ (Y.gstates gid).assigned) ∧
        ¬(x = p.2 ∧ gidOf env (a0 p.1) = some gid) ∧
        ¬(x = p.1 ∧ gidOf env (a0 p.2) = some gid)) ∨
      (x = p.1 ∧ gidOf env (a0 p.1) = some gid) ∨
      (x = p.2 ∧ gidOf env (a0 p.2) = some gid)) ∧
    (∀ gid, gidOf env (a0 p.1) ≠ some gid → gidOf env (a0 p.2) ≠ some gid →
      (revertPair env Y p).gstates gid = Y.gstates gid) ∧
    (∀ gid, (gidOf env (a0 p.1) = some gid ∨ gidOf env (a0 p.2) = some gid) →
      ((revertPair env Y p).gstates gid).cached = none ∧
      ((revertPair env Y p).gstates gid).dirty = true) ∧
    (∀ gid, (Y.gstates gid).cached = none ∧ (Y.gstates gid).dirty = true →
      ((revertPair env Y p).gstates gid).cached = none ∧
      ((revertPair env Y p).gstates gid).dirty = true) := by
  unfold revertPair
  dsimp only
  rw [hsw1, hsw2]
  cases hgQ : get_group env (a0 p.2) with
  | none =>
    dsimp only
    cases hgP : get_group env (a0 p.1) with
    | none =>
      dsimp only
      rw [hsw1, hsw2]
      refine ⟨rfl, ?_, ?_, hK, ?_, ?_, ?_, ?_⟩
      · intro u; simp [optG, hgP, hgQ]
      · intro key; simp [optR, hgP, hgQ]
      · intro gid x
        simp [gidOf, hgP, hgQ]
      · intro gid _ _; rfl
      · intro gid hg
        simp [gidOf, hgP, hgQ] at hg
      · intro gid h; exact h
    | some P =>
      dsimp only
      refine ⟨?_, ?_, ?_, ?_, ?_, ?_, ?_, ?_⟩
      · rw [insOp_assign]
        dsimp only
        rw [remOp_assign, hsw1, hsw2]
      · intro u
        rw [insOp_usage]
        dsimp only
        rw [remOp_usage]
        simp [optG, hgP, hgQ]
        all_goals ring
      · intro key
        rw [insOp_rule]
        dsimp only
        rw [remOp_rule]
        simp [optR, hgP, hgQ]
        all_goals ring
      · intro gid
        apply insOp_KSorted
        intro gid'
        show KSorted _
        apply remOp_KSorted
        exact hK
      · intro gid x
        rw [insOp_mem]
        dsimp only
        rw [remOp_mem]
        · simp [gidOf, hgP, hgQ]
          all_goals tauto
        · exact nodup_of_KSorted _ (hK P.id)
      · intro gid h1 h2
        have hne : gid ≠ P.id := by
          intro he
          exact h1 (by simp [gidOf, hgP, he])
        rw [insOp_gstates_other env P _ p.1 gid hne]
        dsimp only
        rw [remOp_gstates_other env P _ p.2 gid hne]
      · intro gid hg
        have hid : P.id = gid := by
          rcases hg with he | he
          · simpa [gidOf, hgP] using he
          · simp [gidOf, hgQ] at he
        rw [← hid]
        exact insOp_cache_self env P _ p.1
      · intro gid h
        apply insOp_cacheinv
        dsimp only
        apply remOp_cacheinv
        exact h
  | some Q =>
    dsimp only
    cases hgP : get_group env (a0 p.1) with
    | none =>
      dsimp only
      refine ⟨?_, ?_, ?_, ?_, ?_, ?_, ?_, ?_⟩
      · rw [insOp_assign]
        dsimp only
        rw [remOp_assign, hsw1, hsw2]
      · intro u
        rw [insOp_usage]
        dsimp only
        rw [remOp_usage]
        simp [optG, hgP, hgQ]
        all_goals ring
      · intro key
        rw [insOp_rule]
        dsimp only
        rw [remOp_rule]
        simp [optR, hgP, hgQ]
        all_goals ring
      · intro gid
        apply insOp_KSorted
        intro gid'
        show KSorted _
        apply remOp_KSorted
        exact hK
      · intro gid x
        rw [insOp_mem]
        dsimp only
        rw [remOp_mem]
        · simp [gidOf, hgP, hgQ]
          all_goals tauto
        · exact nodup_of_KSorted _ (hK Q.id)
      · intro gid h1 h2
        have hne : gid ≠ Q.id := by
          intro he
          exact h2 (by simp [gidOf, hgQ, he])
        rw [insOp_gstates_other env Q _ p.2 gid hne]
        dsimp only
        rw [remOp_gstates_other env Q _ p.1 gid hne]
      · intro gid hg
        have hid : Q.id = gid := by
          rcases hg with he | he
          · simp [gidOf, hgP] at he
          · simpa [gidOf, hgQ] using he
        rw [← hid]
        exact insOp_cache_self env Q _ p.2
      · intro gid h
        apply insOp_cacheinv
        dsimp only
        apply remOp_cacheinv
        exact h
    | some P =>
      dsimp only
      refine ⟨?_, ?_, ?_, ?_, ?_, ?_, ?_, ?_⟩
      · rw [insOp_assign, insOp_assign]
        dsimp only
        rw [remOp_assign, remOp_assign, hsw1, hsw2]
      · intro u
        rw [insOp_usage, insOp_usage]
        dsimp only
        rw [remOp_usage, remOp_usage]
        simp [optG, hgP, hgQ]
        all_goals ring
      · intro key
        rw [insOp_rule, insOp_rule]
        dsimp only
        rw [remOp_rule, remOp_rule]
        simp [optR, hgP, hgQ]
        all_goals ring
      · intro gid
        apply insOp_KSorted
        intro gid'
        apply insOp_KSorted
        intro gid''
        show KSorted _
        apply remOp_KSorted
        intro gid'''
        apply remOp_KSorted
        exact hK
      · intro gid x
        rw [insOp_mem, insOp_mem]
        dsimp only
        rw [remOp_mem, remOp_mem]
        · simp [gidOf, hgP, hgQ]
          all_goals tauto
        all_goals first
          | exact nodup_of_KSorted _ (hK Q.id)
          | (apply nodup_of_KSorted
             apply remOp_KSorted
             exact hK)
      · intro gid h1 h2
        have hneP : gid ≠ P.id := by
          intro he
          exact h1 (by simp [gidOf, hgP, he])
        have hneQ : gid ≠ Q.id := by
          intro he
          exact h2 (by simp [gidOf, hgQ, he])
        rw [insOp_gstates_other env Q _ p.2 gid hneQ,
          insOp_gstates_other env P _ p.1 gid hneP]
        dsimp only
        rw [remOp_gstates_other env P _ p.2 gid hneP,
          remOp_gstates_other env Q _ p.1 gid hneQ]
      · intro gid hg
        by_cases hq : Q.id = gid
        · rw [← hq]
          exact insOp_cache_self env Q _ p.2
        · have hidP : P.id = gid := by
            rcases hg with he | he
            · simpa [gidOf, hgP] using he
            · exact absurd (by simpa [gidOf, hgQ] using he) hq
          apply insOp_cacheinv
          rw [← hidP]
          exact insOp_cache_self env P _ p.1
      · intro gid h
        apply insOp_cacheinv
        apply insOp_cacheinv
        dsimp only
        apply remOp_cacheinv
        apply remOp_cacheinv
        exact h

theorem revertFold_spec (env : Env) (a0 : SlotKey → Option GroupId) :
    ∀ (ps : Move) (Y : SchedState),
      (moveKeys ps).Nodup →
      (∀ p, p ∈ ps → Y.assign p.1 = a0 p.2 ∧ Y.assign p.2 = a0 p.1) →
      (∀ gid, KSorted ((Y.gstates gid).assigned)) →
      (∀ k, k ∉ moveKeys ps → (ps.foldl (revertPair env) Y).assign k = Y.assign k) ∧
      (∀ p, p ∈ ps → (ps.foldl (revertPair env) Y).assign p.1 = a0 p.1 ∧
        (ps.foldl (revertPair env) Y).assign p.2 = a0 p.2) ∧
      (∀ u, (ps.foldl (revertPair env) Y).usage_counters u =
        Y.usage_counters u - mvGx env a0 u ps + mvG env a0 u ps) ∧
      (∀ key, (ps.foldl (revertPair env) Y).rule_usage key =
        Y.rule_usage key - mvRx env a0 key ps + mvR env a0 key ps) ∧
      (∀ gid, KSorted (((ps.foldl (revertPair env) Y).gstates gid).assigned)) ∧
      (∀ gid x, (x ∈ ((ps.foldl (revertPair env) Y).gstates gid).assigned) ↔
        ((x ∈ (Y.gstates gid).assigned) ∧ ¬ insHit env a0 ps gid x) ∨
        remHit env a0 ps gid x) ∧
      (∀ gid, ¬ touchedGid env a0 ps gid →
        (ps.foldl (revertPair env) Y).gstates gid = Y.gstates gid) ∧
      (∀ gid, touchedGid env a0 ps gid →
        ((ps.foldl (revertPair env) Y).gstates gid).cached = none ∧
        ((ps.foldl (revertPair env) Y).gstates gid).dirty = true) := by
  intro ps
  induction ps with
  | nil =>
    intro Y _ _ hK
    refine ⟨fun k _ => rfl, fun p hp => absurd hp (List.not_mem_nil p),
      ?_, ?_, hK, ?_, fun gid _ => rfl, ?_⟩
    · intro u; simp [mvGx, mvG]
    · intro key; simp [mvRx, mvR]
    · intro gid x; simp [insHit, remHit]
    · intro gid hg; exact absurd hg (by simp [touchedGid])
  | cons p ps ih =>
    intro Y hnd hswap hK
    rw [List.foldl_cons]
    rw [moveKeys_cons] at hnd
    rcases List.nodup_cons.1 hnd with ⟨hp1, hnd2⟩
    rcases List.nodup_cons.1 hnd2 with ⟨hp2, hndr⟩
    have hp12 : p.1 ≠ p.2 := fun he => hp1 (he ▸ List.mem_cons_self _ _)
    have hp1r : p.1 ∉ moveKeys ps := fun hc => hp1 (List.mem_cons_of_mem _ hc)
    rcases hswap p (List.mem_cons_self p ps) with ⟨hsw1, hsw2⟩
    rcases revertPair_spec env a0 Y p hsw1 hsw2 hK with
      ⟨sA, sU, sR, sK, sM, sO, sCT, sCM⟩
    have hqk : ∀ q, q ∈ ps → q.1 ∈ moveKeys ps ∧ q.2 ∈ moveKeys ps := fun q hq =>
      ⟨(mem_moveKeys ps q.1).2 ⟨q, hq, Or.inl rfl⟩,
        (mem_moveKeys ps q.2).2 ⟨q, hq, Or.inr rfl⟩⟩
    have hswap1 : ∀ q, q ∈ ps → (revertPair env Y p).assign q.1 = a0 q.2 ∧
        (revertPair env Y p).assign q.2 = a0 q.1 := by
      intro q hq
      rcases hqk q hq with ⟨hq1, hq2⟩
      have hq11 : q.1 ≠ p.1 := fun he => hp1r (he ▸ hq1)
      have hq12 : q.1 ≠ p.2 := fun he => hp2 (he ▸ hq1)
      have hq21 : q.2 ≠ p.1 := fun he => hp1r (he ▸ hq2)
      have hq22 : q.2 ≠ p.2 := fun he => hp2 (he ▸ hq2)
      rw [sA, Function.update_noteq hq12, Function.update_noteq hq11,
        Function.update_noteq hq22, Function.update_noteq hq21]
      exact hswap q (List.mem_cons_of_mem p hq)
    rcases ih (revertPair env Y p) hndr hswap1 sK with
      ⟨iA, iP, iU, iR, iK, iM, iO, iC⟩
    refine ⟨?_, ?_, ?_, ?_, iK, ?_, ?_, ?_⟩
    · intro k hk
      simp only [moveKeys_cons, List.mem_cons, not_or] at hk
      rcases hk with ⟨hk1, hk2, hkr⟩
      rw [iA k hkr, sA, Function.update_noteq hk2, Function.update_noteq hk1]
    · intro q hq
      rcases List.mem_cons.1 hq with rfl | hq
      · constructor
        · rw [iA q.1 hp1r, sA, Function.update_noteq hp12, Function.update_same]
        · rw [iA q.2 hp2, sA, Function.update_same]
      · exact iP q hq
    · intro u
      rw [iU u, sU u]
      simp only [mvGx, mvG]
      ring
    · intro key
      rw [iR key, sR key]
      simp only [mvRx, mvR]
      ring
    · intro gid x
      rw [iM gid x, sM gid x, insHit_cons, remHit_cons]
      have h1 : x = p.1 → ¬ insHit env a0 ps gid x := fun he hi =>
        hp1r (he ▸ insHit_mem_keys env a0 ps gid x hi)
      have h2 : x = p.2 → ¬ insHit env a0 ps gid x := fun he hi =>
        hp2 (he ▸ insHit_mem_keys env a0 ps gid x hi)
      constructor
      · rintro (⟨hy | hc | hd, hir⟩ | hr)
        · exact Or.inl ⟨hy.1, fun hx =>
            hx.elim (fun hab => hab.elim hy.2.1 hy.2.2) hir⟩
        · exact Or.inr (Or.inl (Or.inl hc))
        · exact Or.inr (Or.inl (Or.inr hd))
        · exact Or.inr (Or.inr hr)
      · rintro (⟨hy, hn⟩ | (hc | hd) | hr)
        · exact Or.inl ⟨Or.inl ⟨hy, fun h => hn (Or.inl (Or.inl h)),
            fun h => hn (Or.inl (Or.inr h))⟩, fun h => hn (Or.inr h)⟩
        · exact Or.inl ⟨Or.inr (Or.inl hc), h1 hc.1⟩
        · exact Or.inl ⟨Or.inr (Or.inr hd), h2 hd.1⟩
        · exact Or.inr hr
    · intro gid h
      rw [touchedGid_cons] at h
      have h1' : gidOf env (a0 p.1) ≠ some gid := fun hc => h (Or.inl (Or.inl hc))
      have h2' : gidOf env (a0 p.2) ≠ some gid := fun hc => h (Or.inl (Or.inr hc))
      have h3 : ¬ touchedGid env a0 ps gid := fun hc => h (Or.inr hc)
      exact (iO gid h3).trans (sO gid h1' h2')
    · intro gid h
      by_cases hps : touchedGid env a0 ps gid
      · exact iC gid hps
      · rw [touchedGid_cons] at h
        have hcp : gidOf env (a0 p.1) = some gid ∨ gidOf env (a0 p.2) = some gid := by
          rcases h with hc | hc
          · exact hc
          · exact absurd hc hps
        rw [iO gid hps]
        exact sCT gid hcp

/-- C3 (amended): for every candidate move over pairwise-distinct slot
keys (the optimizer's single swaps and block swaps included), a valid
tentative application via `_try_apply_move` followed by `_revert_move`
restores every slot assignment, every usage counter and every
staffing-rule usage ledger entry, and every group's assigned-slot set;
the groups owning a moved slot end with their score cache invalidated
(`_cached_score = None`, `_is_dirty = True`) rather than restored to its
prior value, and groups not involved in the move keep their whole state
unchanged. The hypotheses ask that the pre-move state be coherent: the
assigned-slot sets are canonically sorted and a moved key belongs to a
group's set exactly when the slot is assigned to that group. -/
theorem C3_amended_revert_restores_state (env : Env) (st : SchedState) (mv : Move)
    (hnodup : (moveKeys mv).Nodup)
    (hK : ∀ gid, KSorted ((st.gstates gid).assigned))
    (hmem1 : ∀ k, k ∈ moveKeys mv → ∀ gid, gidOf env (st.assign k) = some gid →
      k ∈ (st.gstates gid).assigned)
    (hmem2 : ∀ k, k ∈ moveKeys mv → ∀ gid, gidOf env (st.assign k) ≠ some gid →
      k ∉ (st.gstates gid).assigned)
    (hvalid : (try_apply_move env st mv).1 = true) :
    (∀ k, (revert_move env (try_apply_move env st mv).2 mv).assign k = st.assign k) ∧
    (∀ u, (revert_move env (try_apply_move env st mv).2 mv).usage_counters u =
      st.usage_counters u) ∧
    (∀ key, (revert_move env (try_apply_move env st mv).2 mv).rule_usage key =
      st.rule_usage key) ∧
    (∀ gid x, (x ∈ ((revert_move env (try_apply_move env st mv).2 mv).gstates gid).assigned)
      ↔ x ∈ ((st.gstates gid).assigned)) ∧
    (∀ gid, ¬ touchedGid env st.assign mv gid →
      (revert_move env (try_apply_move env st mv).2 mv).gstates gid = st.gstates gid) ∧
    (∀ gid, touchedGid env st.assign mv gid →
      ((revert_move env (try_apply_move env st mv).2 mv).gstates gid).cached = none ∧
      ((revert_move env (try_apply_move env st mv).2 mv).gstates gid).dirty = true) := by
  have hb : (mv.foldl (tryApplyCheckPair env mv) (true, tryApplyRemovals env st mv)).1
      = true := by
    unfold try_apply_move at hvalid
    dsimp only at hvalid
    by_cases hc : (mv.foldl (tryApplyCheckPair env mv)
        (true, tryApplyRemovals env st mv)).1 = true
    · exact hc
    · rw [if_neg hc] at hvalid
      exact absurd hvalid (by simp)
  have hres : (try_apply_move env st mv).2 = mv.foldl (applySwapPair env)
      (mv.foldl (tryApplyCheckPair env mv) (true, tryApplyRemovals env st mv)).2 := by
    unfold try_apply_move
    dsimp only
    rw [if_pos hb]
  rw [show revert_move env (try_apply_move env st mv).2 mv =
    mv.foldl (revertPair env) (try_apply_move env st mv).2 from rfl, hres]
  rcases removals_spec env mv st hK with ⟨rA, rU, rR, rK, rM, rO⟩
  rcases checkFold_core env mv mv (true, tryApplyRemovals env st mv) with
    ⟨cA, cU, cR, cG⟩
  have hagree : ∀ k, k ∈ moveKeys mv →
      (mv.foldl (tryApplyCheckPair env mv)
        (true, tryApplyRemovals env st mv)).2.assign k = st.assign k := by
    intro k _
    rw [cA, rA]
  have hKc : ∀ gid, KSorted (((mv.foldl (tryApplyCheckPair env mv)
      (true, tryApplyRemovals env st mv)).2.gstates gid).assigned) := by
    intro gid
    rw [cG]
    exact rK gid
  rcases applyFold_spec env st.assign mv
    (mv.foldl (tryApplyCheckPair env mv) (true, tryApplyRemovals env st mv)).2
    hnodup hagree hKc with ⟨aA, aP, aU, aR, aK, aM, aO⟩
  rcases revertFold_spec env st.assign mv
    (mv.foldl (applySwapPair env)
      (mv.foldl (tryApplyCheckPair env mv) (true, tryApplyRemovals env st mv)).2)
    hnodup aP aK with ⟨vA, vP, vU, vR, vK, vM, vO, vC⟩
  refine ⟨?_, ?_, ?_, ?_, ?_, ?_⟩
  · intro k
    by_cases hk : k ∈ moveKeys mv
    · rcases (mem_moveKeys mv k).1 hk with ⟨p, hp, rfl | rfl⟩
      · exact (vP p hp).1
      · exact (vP p hp).2
    · rw [vA k hk, aA k hk, cA, rA]
  · intro u
    rw [vU u, aU u, cU, rU u]
    ring
  · intro key
    rw [vR key, aR key, cR, rR key]
    ring
  · intro gid x
    rw [vM gid x, aM gid x, show (mv.foldl (tryApplyCheckPair env mv)
      (true, tryApplyRemovals env st mv)).2.gstates = (tryApplyRemovals env st
      mv).gstates from cG, rM gid x]
    constructor
    · rintro (⟨ha | hi, hni⟩ | hr)
      · exact ha.1
      · exact absurd hi hni
      · rcases hr with ⟨p, hp, ⟨rfl, hgid⟩ | ⟨rfl, hgid⟩⟩
        · exact hmem1 p.1 ((mem_moveKeys mv p.1).2 ⟨p, hp, Or.inl rfl⟩) gid hgid
        · exact hmem1 p.2 ((mem_moveKeys mv p.2).2 ⟨p, hp, Or.inr rfl⟩) gid hgid
    · intro hy
      by_cases hr : remHit env st.assign mv gid x
      · exact Or.inr hr
      · refine Or.inl ⟨Or.inl ⟨hy, hr⟩, ?_⟩
        intro hi
        have hxk : x ∈ moveKeys mv := insHit_mem_keys env st.assign mv gid x hi
        by_cases hg : gidOf env (st.assign x) = some gid
        · rcases (mem_moveKeys mv x).1 hxk with ⟨q, hq, he | he⟩
          · exact hr ⟨q, hq, Or.inl ⟨he, he ▸ hg⟩⟩
          · exact hr ⟨q, hq, Or.inr ⟨he, he ▸ hg⟩⟩
        · exact hmem2 x hxk gid hg hy
  · intro gid h
    rw [vO gid h, aO gid h, show (mv.foldl (tryApplyCheckPair env mv)
      (true, tryApplyRemovals env st mv)).2.gstates = (tryApplyRemovals env st
      mv).gstates from cG, rO gid h]
  · intro gid h
    exact vC gid h

/-- Witness for the amended C3 statement: the single swap moving "G" from
slot `(0,10,1)` to the empty unlocked slot `(0,12,1)` is tentatively
applied (the checks pass) and reverted; the pre-move state comes back in
full, with "G"'s score cache invalidated. -/
theorem C3_amended_witness :
    (∀ k, (revert_move envW (try_apply_move envW stW mvW).2 mvW).assign k =
      stW.assign k) ∧
    (∀ u, (revert_move envW (try_apply_move envW stW mvW).2 mvW).usage_counters u =
      stW.usage_counters u) ∧
    (∀ key, (revert_move envW (try_apply_move envW stW mvW).2 mvW).rule_usage key =
      stW.rule_usage key) ∧
    (∀ gid x, (x ∈ ((revert_move envW (try_apply_move envW stW mvW).2 mvW).gstates
      gid).assigned) ↔ x ∈ ((stW.gstates gid).assigned)) ∧
    (∀ gid, ¬ touchedGid envW stW.assign mvW gid →
      (revert_move envW (try_apply_move envW stW mvW).2 mvW).gstates gid =
        stW.gstates gid) ∧
    (∀ gid, touchedGid envW stW.assign mvW gid →
      ((revert_move envW (try_apply_move envW stW mvW).2 mvW).gstates gid).cached =
        none ∧
      ((revert_move envW (try_apply_move envW stW mvW).2 mvW).gstates gid).dirty =
        true) := by
  apply C3_amended_revert_restores_state
  · decide
  · intro gid
    by_cases h : gid = "G"
    · subst h
      simp [stW, KSorted]
    · have hempty : (stW.gstates gid).assigned = [] := by simp [stW, h]
      rw [hempty]
      simp [KSorted]
  · intro k hk gid hg
    rw [show moveKeys mvW = [⟨0, 10, 1⟩, ⟨0, 12, 1⟩] from rfl] at hk
    simp only [List.mem_cons, List.not_mem_nil, or_false] at hk
    rcases hk with rfl | rfl
    · rw [show gidOf envW (stW.assign ⟨0, 10, 1⟩) = some "G" from by decide] at hg
      injection hg with hgid
      subst hgid
      decide
    · rw [show gidOf envW (stW.assign ⟨0, 12, 1⟩) = none from by decide] at hg
      exact Option.noConfusion hg
  · intro k hk gid hg
    rw [show moveKeys mvW = [⟨0, 10, 1⟩, ⟨0, 12, 1⟩] from rfl] at hk
    simp only [List.mem_cons, List.not_mem_nil, or_false] at hk
    by_cases h : gid = "G"
    · subst h
      rcases hk with rfl | rfl
      · exact absurd (by decide :
          gidOf envW (stW.assign (⟨0, 10, 1⟩ : SlotKey)) = some "G") hg
      · decide
    · have hempty : (stW.gstates gid).assigned = [] := by simp [stW, h]
      rw [hempty]
      simp
  · decide

end Shmirot
